import Mathlib

/-!
# TomatoTaskTracker: project persistence and tray status

A shallow embedding of `src/core/projectxml.cpp`: the serializer that turns a
tracker (settings and task tree) into a DOM document, and the loader that walks
a DOM document and replays it on a tracker through `setWorkingTime`,
`setRestingTime` and `addTask`; and of `src/gui/systemtrayicon.cpp`: the status
text and the icon that the tray shows for the state of the timer.

The DOM (`QDomNode`), the string/number conversions of `QString` and the tracker
(`Tomato`, `Task`, `TaskData`, `TaskTime`) are library or repository code that
the file only uses; they are modelled here with the behaviour the file relies on.
The document is handed from the serializer to the loader as a DOM tree: the
textual form produced by `QDomDocument::toByteArray` and read back by
`QDomDocument::setContent` is outside the embedding.
-/

namespace TomatoTaskTracker

/-! ## DOM -/

/-- A DOM node as the persistence code observes it: its `nodeName()`, its attributes
(an association list, first binding wins) and its child nodes in document order.
A node that is not an element (text, comment, processing instruction) is a node
with its DOM name (`#text`, `#comment`, the instruction target), no attributes,
so that `toElement().attribute(n, d)` is `d`, as for a null element. -/
inductive QDomNode where
  | mk (nodeName : String) (attributes : List (String × String)) (childNodes : List QDomNode)

namespace QDomNode

/-- The name of the node (`QDomNode::nodeName`). -/
def nodeName : QDomNode → String
  | mk n _ _ => n

/-- The attribute bindings of the node. -/
def attributes : QDomNode → List (String × String)
  | mk _ a _ => a

/-- The children of the node, first child first (`firstChild` / `nextSibling`). -/
def childNodes : QDomNode → List QDomNode
  | mk _ _ c => c

/-- The value of attribute `name`, or `defValue` when the node has no such attribute
(`QDomElement::attribute`). -/
def attr (e : QDomNode) (name defValue : String) : String :=
  match e.attributes.lookup name with
  | some v => v
  | none => defValue

/-- Binding `name` to `value` in an attribute list: an existing binding is replaced,
otherwise a new one is added. -/
def setAttr : List (String × String) → String → String → List (String × String)
  | [], name, value => [(name, value)]
  | (k, w) :: rest, name, value =>
    if k = name then (k, value) :: rest else (k, w) :: setAttr rest name value

/-- The node with attribute `name` set to `value` (`QDomElement::setAttribute`). -/
def setAttribute : QDomNode → String → String → QDomNode
  | mk n a c, name, value => mk n (setAttr a name value) c

/-- The node with `child` added after its last child (`QDomNode::appendChild`). -/
def appendChild : QDomNode → QDomNode → QDomNode
  | mk n a c, child => mk n a (c ++ [child])

end QDomNode

/-- A new element with the given tag, no attributes and no children
(`QDomDocument::createElement`). -/
def createElement (tagName : String) : QDomNode := QDomNode.mk tagName [] []

/-! ## QString number conversions -/

namespace QString

/-- Whitespace as `QChar::isSpace` sees it: space, the controls U+0009..U+000D, U+0085,
U+00A0 and the Unicode separators. -/
def isSpace (c : Char) : Bool :=
  let n := c.toNat
  n = 0x20 || (9 ≤ n && n ≤ 13) || n = 0x85 || n = 0xA0 || n = 0x1680 ||
  (0x2000 ≤ n && n ≤ 0x200A) || n = 0x2028 || n = 0x2029 || n = 0x202F ||
  n = 0x205F || n = 0x3000

/-- The text without leading and trailing whitespace. -/
def trimmed (cs : List Char) : List Char :=
  ((cs.dropWhile isSpace).reverse.dropWhile isSpace).reverse

/-- The value of a decimal digit character, if it is one. -/
def digitValue (c : Char) : Option Nat :=
  if 48 ≤ c.toNat ∧ c.toNat ≤ 57 then some (c.toNat - 48) else none

/-- Reading decimal digits left to right onto an accumulator; `none` at the first
character that is not a digit. -/
def parseDigits : List Char → Nat → Option Nat
  | [], acc => some acc
  | c :: cs, acc =>
    match digitValue c with
    | some d => parseDigits cs (acc * 10 + d)
    | none => none

/-- A non-empty run of decimal digits as a natural number. -/
def parseNat (cs : List Char) : Option Nat :=
  match cs with
  | [] => none
  | _ :: _ => parseDigits cs 0

/-- The integer written by a text: surrounding whitespace, an optional sign, then
one or more decimal digits and nothing else. -/
def parseInteger (cs : List Char) : Option Int :=
  match trimmed cs with
  | [] => none
  | c :: ds =>
    if c = '-' then (parseNat ds).map (fun n => -(n : Int))
    else if c = '+' then (parseNat ds).map (fun n => (n : Int))
    else (parseNat (c :: ds)).map (fun n => (n : Int))

/-- `QString::toLongLong()`: the written integer when it fits a signed 64-bit integer,
0 when the conversion fails. -/
def toLongLong (s : String) : Int :=
  match parseInteger s.data with
  | some v => if -2 ^ 63 ≤ v ∧ v < 2 ^ 63 then v else 0
  | none => 0

/-- `QString::toInt()`: the written integer when it fits a signed 32-bit integer,
0 when the conversion fails. -/
def toInt (s : String) : Int :=
  match parseInteger s.data with
  | some v => if -2 ^ 31 ≤ v ∧ v < 2 ^ 31 then v else 0
  | none => 0

/-- Decimal digits of `n`, most significant first, in front of `acc`; `fuel` bounds
the number of digits. -/
def natDigitsAux : Nat → Nat → List Char → List Char
  | 0, _, acc => acc
  | fuel + 1, n, acc =>
    if n < 10 then Nat.digitChar n :: acc
    else natDigitsAux fuel (n / 10) (Nat.digitChar (n % 10) :: acc)

/-- The decimal digits of a natural number. -/
def natDigits (n : Nat) : List Char := natDigitsAux (n + 1) n []

/-- `QString::number(n)`: the decimal form of an integer, with a leading minus sign
when it is negative. -/
def number (n : Int) : String :=
  match n with
  | Int.ofNat m => String.mk (natDigits m)
  | Int.negSucc m => String.mk ('-' :: natDigits (m + 1))

end QString

/-! ## Names of the file format -/

def nsProject : String := "TomatoTaskTracker"
def nsSettings : String := "Settings"
def nsRootTask : String := "RootTask"
def nsTask : String := "Task"
def nsTaskTime : String := "Time"

def attrWorkingTime : String := "workingtime"
def attrRestingTime : String := "restingtime"
def attrStartTime : String := "starttime"
def attrEndTime : String := "endtime"
def attrTitle : String := "title"
def attrDesc : String := "desc"
def attrTimeLimit : String := "timelimit"
def attrIsDone : String := "isdone"

/-! ## Tracker data model -/

/-- A recorded time interval: `start()` and `end()` timestamps (`qint64`). -/
structure TaskTime where
  start : Int
  end_ : Int
  deriving DecidableEq, Repr

/-- The data of a task: title, description, time limit, completion flag and the
recorded intervals. -/
structure TaskData where
  title : String
  desc : String
  timeLimit : Int
  isCompleted : Bool
  times : List TaskTime
  deriving DecidableEq, Repr

/-- A task of the tree: its id, its data and its ordered children. -/
inductive Task where
  | mk (id : Int) (data : TaskData) (children : List Task)

namespace Task

def id : Task → Int
  | mk i _ _ => i

def data : Task → TaskData
  | mk _ d _ => d

def children : Task → List Task
  | mk _ _ c => c

end Task

/-- The timer states of the tracker (`Tomato::State`). -/
inductive State where
  | Idle
  | Working
  | OverWorking
  | Resting
  | OverResting
  deriving DecidableEq, Repr

/-- Modelled from the spec: the tracker (`Tomato`, declared in `tomato.h`, not among the
sources): the working and resting durations, the timer state, the task tree under
a root task, the active task if any, the interval `calcActiveTaskTime()` would
return now, and the next id the tracker will assign. -/
structure Tomato where
  workingTime : Int
  restingTime : Int
  state : State
  rootTask : Task
  activeTaskId : Option Int
  calcActiveTaskTime : TaskTime
  nextId : Int

namespace Tomato

/-- Modelled from the spec: `Tomato::isActiveTask`, whether `id` is the task currently
selected for time accrual. -/
def isActiveTask (tomato : Tomato) (id : Int) : Bool :=
  tomato.activeTaskId == some id

/-- The id of the root task (`Tomato::rootTaskId`). -/
def rootTaskId (tomato : Tomato) : Int := tomato.rootTask.id

end Tomato

/-! ## Serializer -/

/-- The `Settings` element: the two durations as attributes. -/
def createSettingsElem (tomato : Tomato) : QDomNode :=
  let elem := createElement nsSettings
  let elem := elem.setAttribute attrWorkingTime (QString.number tomato.workingTime)
  let elem := elem.setAttribute attrRestingTime (QString.number tomato.restingTime)
  elem

/-- The `Time` element written for an interval (the body of both places of
`createTaskElem` that emit one). -/
def taskTimeElem (taskTime : TaskTime) : QDomNode :=
  let taskTimeElem := createElement nsTaskTime
  let taskTimeElem := taskTimeElem.setAttribute attrStartTime (QString.number taskTime.start)
  let taskTimeElem := taskTimeElem.setAttribute attrEndTime (QString.number taskTime.end_)
  taskTimeElem

/-- The `foreach` loop of `createTaskElem` over the recorded intervals. -/
def appendTaskTimes : List TaskTime → QDomNode → QDomNode
  | [], elem => elem
  | taskTime :: rest, elem => appendTaskTimes rest (elem.appendChild (taskTimeElem taskTime))

mutual
/-- The `Task` element of a task: its attributes, a `Time` child per recorded interval,
the interval accrued so far when the task is the active one and the timer is
working, then the elements of its children. `isEmpty` is `TaskTime::isEmpty`. -/
def createTaskElem (isEmpty : TaskTime → Bool) (tomato : Tomato) : Task → QDomNode
  | Task.mk id data children =>
    let elem := createElement nsTask
    let elem := elem.setAttribute attrTitle data.title
    let elem := elem.setAttribute attrDesc data.desc
    let elem := elem.setAttribute attrTimeLimit (QString.number data.timeLimit)
    let elem := elem.setAttribute attrIsDone (QString.number (if data.isCompleted then 1 else 0))
    let elem := appendTaskTimes data.times elem
    let elem :=
      if tomato.isActiveTask id
          && (tomato.state == State.Working || tomato.state == State.OverWorking) then
        let taskTime := tomato.calcActiveTaskTime
        if !isEmpty taskTime then elem.appendChild (taskTimeElem taskTime) else elem
      else elem
    appendTaskElems isEmpty tomato children elem
/-- The `for` loop over the children of a task or of the root task: the element of each
child is appended in turn. -/
def appendTaskElems (isEmpty : TaskTime → Bool) (tomato : Tomato) :
    List Task → QDomNode → QDomNode
  | [], elem => elem
  | child :: rest, elem =>
    appendTaskElems isEmpty tomato rest (elem.appendChild (createTaskElem isEmpty tomato child))
end

/-- The `RootTask` element: the elements of the top-level tasks. -/
def createRootTaskElem (isEmpty : TaskTime → Bool) (tomato : Tomato) (rootTask : Task) :
    QDomNode :=
  let rootTaskElem := createElement nsRootTask
  appendTaskElems isEmpty tomato rootTask.children rootTaskElem

/-- The document element built by `saveProjectToXml` before it is written out. -/
def projectElem (isEmpty : TaskTime → Bool) (tomato : Tomato) : QDomNode :=
  let projectElem := createElement nsProject
  let projectElem := projectElem.appendChild (createSettingsElem tomato)
  let projectElem := projectElem.appendChild (createRootTaskElem isEmpty tomato tomato.rootTask)
  projectElem

/-! ## Loader -/

/-- The operations of the tracker that the loader calls, over any tracker state `σ`:
the two setters, `addTask(parentId, data)` returning the new id, and `rootTaskId()`. -/
structure TomatoOps (σ : Type) where
  setWorkingTime : Int → σ → σ
  setRestingTime : Int → σ → σ
  addTask : Int → TaskData → σ → Int × σ
  rootTaskId : σ → Int

/-- The `while` loop of `taskTimesFromElem` over the children of a task element. -/
def taskTimesLoop : List QDomNode → List TaskTime → List TaskTime
  | [], taskTimes => taskTimes
  | taskTimeNode :: rest, taskTimes =>
    if taskTimeNode.nodeName = nsTaskTime then
      let startTime := QString.toLongLong (taskTimeNode.attr attrStartTime "0")
      let endTime := QString.toLongLong (taskTimeNode.attr attrEndTime "0")
      if startTime > 0 ∧ endTime > 0 then
        taskTimesLoop rest (taskTimes ++ [TaskTime.mk startTime endTime])
      else taskTimesLoop rest taskTimes
    else taskTimesLoop rest taskTimes

/-- The intervals read from the `Time` children of a task element. -/
def taskTimesFromElem (taskElem : QDomNode) : List TaskTime :=
  taskTimesLoop taskElem.childNodes []

/-- The task data read from a task element. The default passed for `timelimit` and
`isdone` is the literal `0`, a null string; the flag is the `int` converted to
`bool`. -/
def taskDataFromElem (taskElem : QDomNode) : TaskData :=
  { title := taskElem.attr attrTitle ""
    desc := taskElem.attr attrDesc ""
    timeLimit := QString.toLongLong (taskElem.attr attrTimeLimit "")
    isCompleted := decide (QString.toInt (taskElem.attr attrIsDone "") ≠ 0)
    times := taskTimesFromElem taskElem }

mutual
/-- Adding the task of a `Task` node under `taskId`, then its nested `Task` nodes under
the id the tracker returned. -/
def parceTaskNode {σ : Type} (ops : TomatoOps σ) : QDomNode → Int → σ → σ
  | QDomNode.mk n a c, taskId, tomato =>
    let r := ops.addTask taskId (taskDataFromElem (QDomNode.mk n a c)) tomato
    parceTaskLoop ops c r.1 r.2
/-- The `while` loop of `parceTaskNode` over the children of a task node. -/
def parceTaskLoop {σ : Type} (ops : TomatoOps σ) : List QDomNode → Int → σ → σ
  | [], _, tomato => tomato
  | node :: rest, subTaskId, tomato =>
    if node.nodeName = nsTask then
      parceTaskLoop ops rest subTaskId (parceTaskNode ops node subTaskId tomato)
    else parceTaskLoop ops rest subTaskId tomato
end

/-- The inner `while` loop of `loadProjectFromXml` over the children of a `RootTask`
node. -/
def rootTaskLoop {σ : Type} (ops : TomatoOps σ) : List QDomNode → σ → σ
  | [], tomato => tomato
  | taskRootNode :: rest, tomato =>
    if taskRootNode.nodeName = nsTask then
      rootTaskLoop ops rest (parceTaskNode ops taskRootNode (ops.rootTaskId tomato) tomato)
    else rootTaskLoop ops rest tomato

/-- The outer `while` loop of `loadProjectFromXml` over the children of the document
element. `DefaultWorkingTime` and `DefaultRestingTime` are the constants of
`consts.h`. -/
def projectLoop {σ : Type} (ops : TomatoOps σ) (DefaultWorkingTime DefaultRestingTime : Int) :
    List QDomNode → σ → σ
  | [], tomato => tomato
  | projectNode :: rest, tomato =>
    if projectNode.nodeName = nsSettings then
      let settingsElem := projectNode
      let tomato := ops.setWorkingTime
        (QString.toInt (settingsElem.attr attrWorkingTime (QString.number DefaultWorkingTime)))
        tomato
      let tomato := ops.setRestingTime
        (QString.toInt (settingsElem.attr attrRestingTime (QString.number DefaultRestingTime)))
        tomato
      projectLoop ops DefaultWorkingTime DefaultRestingTime rest tomato
    else if projectNode.nodeName = nsRootTask then
      projectLoop ops DefaultWorkingTime DefaultRestingTime rest
        (rootTaskLoop ops projectNode.childNodes tomato)
    else projectLoop ops DefaultWorkingTime DefaultRestingTime rest tomato

/-- What the loader finds at `fileName`: a file that cannot be opened (with the error
text of the device), a file whose content is not a well-formed document (with the
message of the parser), or a well-formed document with its document element. -/
inductive InputFile where
  | unreadable (errorString : String)
  | malformed (errorMsg : String)
  | document (documentElement : QDomNode)

/-- The outcome of a load: the returned flag, the text stored through `reason` (when
the caller passes one and something is stored) and the tracker afterwards. -/
structure LoadResult (σ : Type) where
  ok : Bool
  reason : Option String
  tomato : σ

/-- The text thrown on a root tag mismatch (`QObject::tr` of it, no translation being
installed). -/
def incorrectFileFormat : String := "incorrect file format"

/-- Loading a project file into a tracker. -/
def loadProjectFromXml {σ : Type} (ops : TomatoOps σ)
    (DefaultWorkingTime DefaultRestingTime : Int) (input : InputFile) (tomato : σ) :
    LoadResult σ :=
  match input with
  | InputFile.unreadable errorString => ⟨false, some errorString, tomato⟩
  | InputFile.malformed errorMsg => ⟨false, some errorMsg, tomato⟩
  | InputFile.document documentElement =>
    if documentElement.nodeName ≠ nsProject then ⟨false, some incorrectFileFormat, tomato⟩
    else
      ⟨true, none,
        projectLoop ops DefaultWorkingTime DefaultRestingTime documentElement.childNodes tomato⟩

/-! ## The tracker behind the loader -/

mutual
/-- The task tree with `added` put after the last child of the task whose id is
`parentId`. -/
def Task.appendUnder (parentId : Int) (added : List Task) : Task → Task
  | Task.mk id data children =>
    Task.mk id data
      (if id = parentId then Task.appendUnderList parentId added children ++ added
       else Task.appendUnderList parentId added children)
/-- The same, through a list of sibling tasks. -/
def Task.appendUnderList (parentId : Int) (added : List Task) : List Task → List Task
  | [] => []
  | t :: rest => Task.appendUnder parentId added t :: Task.appendUnderList parentId added rest
end

namespace Tomato

/-- Modelled from the spec: `Tomato::setWorkingTime`, which sets the working duration. -/
def setWorkingTime (seconds : Int) (tomato : Tomato) : Tomato :=
  { tomato with workingTime := seconds }

/-- Modelled from the spec: `Tomato::setRestingTime`, which sets the resting duration. -/
def setRestingTime (seconds : Int) (tomato : Tomato) : Tomato :=
  { tomato with restingTime := seconds }

/-- Modelled from the spec: `Tomato::addTask(parentId, data)`, the "add task under parent
id" primitive: a task with the given data, no children and an id assigned by the
tracker becomes the last child of the task `parentId`; the id is returned. -/
def addTask (parentId : Int) (data : TaskData) (tomato : Tomato) : Int × Tomato :=
  (tomato.nextId,
    { tomato with
      rootTask := tomato.rootTask.appendUnder parentId [Task.mk tomato.nextId data []]
      nextId := tomato.nextId + 1 })

/-- The modelled tracker as the operations the loader calls. -/
def ops : TomatoOps Tomato :=
  { setWorkingTime := setWorkingTime
    setRestingTime := setRestingTime
    addTask := addTask
    rootTaskId := rootTaskId }

end Tomato

/-- A call the loader makes on the tracker; an `addTask` call carries the id it
returned. -/
inductive Call where
  | setWorkingTime (seconds : Int)
  | setRestingTime (seconds : Int)
  | addTask (parentId : Int) (data : TaskData) (result : Int)
  deriving DecidableEq, Repr

/-- Any tracker, instrumented to record the calls made on it, oldest first. -/
def TomatoOps.logged {σ : Type} (ops : TomatoOps σ) : TomatoOps (σ × List Call) :=
  { setWorkingTime := fun seconds s =>
      (ops.setWorkingTime seconds s.1, s.2 ++ [Call.setWorkingTime seconds])
    setRestingTime := fun seconds s =>
      (ops.setRestingTime seconds s.1, s.2 ++ [Call.setRestingTime seconds])
    addTask := fun parentId data s =>
      let r := ops.addTask parentId data s.1
      (r.1, (r.2, s.2 ++ [Call.addTask parentId data r.1]))
    rootTaskId := fun s => ops.rootTaskId s.1 }

/-! ## Notions used to state the properties -/

/-- The interval a `Time` node stands for: its `starttime` and `endtime` read as 64-bit
integers (0 when missing or unreadable), provided both are positive. -/
def validTime (timeNode : QDomNode) : Option TaskTime :=
  let startTime := QString.toLongLong (timeNode.attr attrStartTime "0")
  let endTime := QString.toLongLong (timeNode.attr attrEndTime "0")
  if 0 < startTime ∧ 0 < endTime then some (TaskTime.mk startTime endTime) else none

/-- Whether saving synthesizes an interval for the task `id`: it is the active task,
the timer is working or over-working, and the accrued interval is not empty. -/
def synthesizes (isEmpty : TaskTime → Bool) (tomato : Tomato) (id : Int) : Bool :=
  tomato.isActiveTask id
    && (tomato.state == State.Working || tomato.state == State.OverWorking)
    && !isEmpty tomato.calcActiveTaskTime

/-- The nodes directly under the `RootTask` blocks of a document, in document order. -/
def rootTaskChildren (documentElement : QDomNode) : List QDomNode :=
  (documentElement.childNodes.filter (fun c => c.nodeName = nsRootTask)).flatMap
    (fun c => c.childNodes)

mutual
/-- The number of `Task` nodes in the subtree of a `Task` node that are linked to it by
`Task` nodes only, itself included. -/
def countTaskNode : QDomNode → Nat
  | QDomNode.mk _ _ c => 1 + countTaskNodes c
/-- The number of `Task` nodes reachable from a sibling list through `Task` nodes only. -/
def countTaskNodes : List QDomNode → Nat
  | [] => 0
  | node :: rest =>
    (if node.nodeName = nsTask then countTaskNode node else 0) + countTaskNodes rest
end

mutual
/-- Reading off a call log the calls for one `Task` node placed under `parentId`: the
log must start with `addTask parentId data r` for the data of this node, followed by
the calls for its nested `Task` nodes under the returned id `r`. The result is
the rest of the log, or `none` when the log does not start that way. -/
def addedNode : QDomNode → Int → List Call → Option (List Call)
  | QDomNode.mk n a c, parentId, calls =>
    match calls with
    | Call.addTask p d r :: calls =>
      if p = parentId ∧ d = taskDataFromElem (QDomNode.mk n a c) then addedNodes c r calls
      else none
    | _ => none
/-- The same for a sibling list, all under `parentId`: one group of calls per `Task` node,
in document order; other nodes account for no call. -/
def addedNodes : List QDomNode → Int → List Call → Option (List Call)
  | [], _, calls => some calls
  | node :: rest, parentId, calls =>
    if node.nodeName = nsTask then
      match addedNode node parentId calls with
      | some calls => addedNodes rest parentId calls
      | none => none
    else addedNodes rest parentId calls
end

/-- Whether a call is an `addTask` call. -/
def Call.isAddTask : Call → Bool
  | Call.addTask _ _ _ => true
  | _ => false

/-- Where a sibling list sits for the loader: directly under the document element,
directly under a `RootTask` block, directly under a `Task` node that the loader
ingests, or anywhere else. -/
inductive Place where
  | top
  | rootTask
  | task
  | other
  deriving DecidableEq, Repr

/-- The place of the children of a node named `name` that sits at `place`. -/
def Place.child (place : Place) (name : String) : Place :=
  match place with
  | Place.top => if name = nsRootTask then Place.rootTask else Place.other
  | Place.rootTask => if name = nsTask then Place.task else Place.other
  | Place.task => if name = nsTask then Place.task else Place.other
  | Place.other => Place.other

/-- The node names the loader acts on at a place. -/
def Place.recognizes (place : Place) (name : String) : Bool :=
  match place with
  | Place.top => name = nsSettings || name = nsRootTask
  | Place.rootTask => name = nsTask
  | Place.task => name = nsTask || name = nsTaskTime
  | Place.other => false

/-- The sibling list with `added` inserted somewhere below: `path` leads from the list,
by child indices, to the node that receives `added` (the empty path is the list
itself), where it becomes the child number `pos` (the last one when `pos` is large). -/
def insertAt (added : QDomNode) (pos : Nat) : List Nat → List QDomNode → List QDomNode
  | [], nodes => nodes.take pos ++ added :: nodes.drop pos
  | i :: path, nodes =>
    nodes.take i ++
      (match nodes.drop i with
       | [] => []
       | QDomNode.mk n a c :: after => QDomNode.mk n a (insertAt added pos path c) :: after)

/-- Whether `path` leads to an existing node and the name of `added` is not one the
loader acts on at the place where it lands. -/
def unrecognizedAt (added : QDomNode) : Place → List Nat → List QDomNode → Bool
  | place, [], _ => !place.recognizes added.nodeName
  | place, i :: path, nodes =>
    match nodes.drop i with
    | [] => false
    | QDomNode.mk n _ c :: _ => unrecognizedAt added (place.child n) path c

/-- A task tree without the ids: what a task holds and its ordered children. -/
inductive TaskTree where
  | mk (data : TaskData) (children : List TaskTree)

mutual
/-- The content of a task and of its descendants, ids dropped. -/
def Task.tree : Task → TaskTree
  | Task.mk _ data children => TaskTree.mk data (Task.forest children)
/-- The content of a list of sibling tasks. -/
def Task.forest : List Task → List TaskTree
  | [] => []
  | t :: rest => Task.tree t :: Task.forest rest
end

mutual
/-- Whether `p` holds of the id and data of a task and of all its descendants. -/
def Task.all (p : Int → TaskData → Bool) : Task → Bool
  | Task.mk id data children => p id data && Task.allList p children
/-- The same for a list of sibling tasks. -/
def Task.allList (p : Int → TaskData → Bool) : List Task → Bool
  | [] => true
  | t :: rest => Task.all p t && Task.allList p rest
end

/-- Whether an integer is in the range of `qint64`. -/
def fitsInt64 (n : Int) : Bool := decide (-2 ^ 63 ≤ n ∧ n < 2 ^ 63)

/-- Whether an integer is in the range of `int`. -/
def fitsInt32 (n : Int) : Bool := decide (-2 ^ 31 ≤ n ∧ n < 2 ^ 31)

/-- Task data whose time limit is a `qint64` and whose intervals all have a positive
`qint64` start and end. -/
def TaskData.positiveTimes (data : TaskData) : Bool :=
  fitsInt64 data.timeLimit &&
    data.times.all (fun t => decide (0 < t.start) && fitsInt64 t.start
      && decide (0 < t.end_) && fitsInt64 t.end_)

mutual
/-- The task that the modelled tracker builds for a `Task` node when `next` is the next
id to assign, with the next id to assign afterwards. -/
def builtTask : QDomNode → Int → Task × Int
  | QDomNode.mk n a c, next =>
    let r := builtTasks c (next + 1)
    (Task.mk next (taskDataFromElem (QDomNode.mk n a c)) r.1, r.2)
/-- The tasks built for the `Task` nodes of a sibling list. -/
def builtTasks : List QDomNode → Int → List Task × Int
  | [], next => ([], next)
  | node :: rest, next =>
    if node.nodeName = nsTask then
      let r1 := builtTask node next
      let r2 := builtTasks rest r1.2
      (r1.1 :: r2.1, r2.2)
    else builtTasks rest next
end

mutual
/-- The ids of a task and of its descendants. -/
def Task.ids : Task → List Int
  | Task.mk id _ children => id :: Task.idsList children
/-- The ids in a list of sibling tasks and their descendants. -/
def Task.idsList : List Task → List Int
  | [] => []
  | t :: rest => Task.ids t ++ Task.idsList rest
end

/-- Modelled from the spec: a tracker that holds no task yet: a root task with id 0 and no
children, the timer idle, no active task, 1 the next id to assign. -/
def Tomato.fresh (workingTime restingTime : Int) : Tomato :=
  { workingTime := workingTime
    restingTime := restingTime
    state := State.Idle
    rootTask := Task.mk 0 (TaskData.mk "" "" 0 false []) []
    activeTaskId := none
    calcActiveTaskTime := TaskTime.mk 0 0
    nextId := 1 }

/-- Whether a task is written as recorded and read back the same: its data has positive
`qint64` times and saving synthesizes no interval for it. -/
def storedAsRecorded (isEmpty : TaskTime → Bool) (tomato : Tomato) (id : Int)
    (data : TaskData) : Bool :=
  data.positiveTimes && !synthesizes isEmpty tomato id

/-! ## Saving to a file -/

/-- The destination `QFile` as `saveProjectToXml` uses it: whether `open(WriteOnly)`
succeeds, the byte count `write` reports for a buffer, and `errorString()` after a
failed open and after the write. -/
structure OutputFile where
  opens : Bool
  write : List UInt8 → Int
  openErrorString : String
  writeErrorString : String

/-- The outcome of a save: the returned flag and the content of `*reason` afterwards
(`none` when the caller passed no `reason`). -/
structure SaveResult where
  ok : Bool
  reason : Option String
  deriving DecidableEq, Repr

/-- Saving a project to a file. `toByteArray` is `QDomDocument::toByteArray` on the
document whose document element is given; `reason` is the content of `*reason`
before the call, `none` for a null pointer. -/
def saveProjectToXml (toByteArray : QDomNode → List UInt8) (isEmpty : TaskTime → Bool)
    (output : OutputFile) (tomato : Tomato) (reason : Option String) : SaveResult :=
  if !output.opens then
    ⟨false, reason.map (fun _ => output.openErrorString)⟩
  else
    let xmlData := toByteArray (projectElem isEmpty tomato)
    if output.write xmlData ≠ (xmlData.length : Int) then
      ⟨false, reason.map (fun _ => output.writeErrorString)⟩
    else ⟨true, reason⟩

/-! ## System tray icon -/

/-- The text with every place marker `%1` replaced by `a`. -/
def QString.argChars : List Char → List Char → List Char
  | [], _ => []
  | '%' :: '1' :: rest, a => a ++ QString.argChars rest a
  | c :: rest, a => c :: QString.argChars rest a

/-- The method `QString::arg(a)` on a text whose only place marker is `%1`. -/
def QString.arg (text a : String) : String :=
  String.mk (QString.argChars text.data a.data)

/-- Modelled from the spec: the project (`Project`, declared in `project.h`, not among the
sources): whether it is open, and its tracker. -/
structure Project where
  isOpen : Bool
  tomato : Tomato

/-- The icons of the theme that the tray uses (`theme::Icon`). -/
inductive Icon where
  | IconApp
  | IconStatusIdle
  | IconStatusWorking
  | IconStatusResting
  | IconStatusTimeout
  deriving DecidableEq, Repr

/-- What the tray shows: its icon, the text of the status action and the tool tip. -/
structure SystemTrayIcon where
  icon : Icon
  statusText : String
  toolTip : String
  deriving DecidableEq, Repr

/-- The method `SystemTrayIcon::updateTrayText`. `secsToTimeStr` is the formatter of `utils.h`,
`calcTomatoTime` the elapsed time the tracker reports now; the differences are taken
in the integers. -/
def updateTrayText (secsToTimeStr : Int → String) (calcTomatoTime : Tomato → Int)
    (project : Project) (tray : SystemTrayIcon) : SystemTrayIcon :=
  let text :=
    if !project.isOpen then "IDLE"
    else
      match project.tomato.state with
      | State.Idle =>
        QString.arg "IDLE: %1" (secsToTimeStr project.tomato.workingTime)
      | State.Working =>
        QString.arg "WORKING: %1"
          (secsToTimeStr (project.tomato.workingTime - calcTomatoTime project.tomato))
      | State.OverWorking =>
        QString.arg "OVERWORKING: %1"
          (secsToTimeStr (calcTomatoTime project.tomato - project.tomato.workingTime))
      | State.Resting =>
        QString.arg "RESTING: %1"
          (secsToTimeStr (project.tomato.restingTime - calcTomatoTime project.tomato))
      | State.OverResting =>
        QString.arg "OVERRESTING: %1"
          (secsToTimeStr (calcTomatoTime project.tomato - project.tomato.restingTime))
  { tray with statusText := text, toolTip := text }

/-- The method `SystemTrayIcon::updateTrayIcon`. -/
def updateTrayIcon (project : Project) (tray : SystemTrayIcon) : SystemTrayIcon :=
  if !project.isOpen then { tray with icon := Icon.IconStatusIdle }
  else
    match project.tomato.state with
    | State.Idle => { tray with icon := Icon.IconStatusIdle }
    | State.Working => { tray with icon := Icon.IconStatusWorking }
    | State.OverWorking => { tray with icon := Icon.IconStatusTimeout }
    | State.Resting => { tray with icon := Icon.IconStatusResting }
    | State.OverResting => { tray with icon := Icon.IconStatusTimeout }

/-- The method `SystemTrayIcon::update`: the icon, then the text. -/
def SystemTrayIcon.update (secsToTimeStr : Int → String) (calcTomatoTime : Tomato → Int)
    (project : Project) (tray : SystemTrayIcon) : SystemTrayIcon :=
  updateTrayText secsToTimeStr calcTomatoTime project (updateTrayIcon project tray)

mutual
/-- The `Task` element as the file format describes it: the four attributes of the task,
then a `Time` element per recorded interval, then the synthesized one if any, then
the elements of the child tasks in their order, each built the same way. -/
def documentedTaskElem (isEmpty : TaskTime → Bool) (tomato : Tomato) : Task → QDomNode
  | Task.mk id data children =>
    QDomNode.mk "Task"
      [("title", data.title), ("desc", data.desc),
       ("timelimit", QString.number data.timeLimit),
       ("isdone", if data.isCompleted then "1" else "0")]
      (data.times.map
          (fun t =>
            QDomNode.mk "Time"
              [("starttime", QString.number t.start), ("endtime", QString.number t.end_)] [])
        ++ (if synthesizes isEmpty tomato id then
              [QDomNode.mk "Time"
                [("starttime", QString.number tomato.calcActiveTaskTime.start),
                 ("endtime", QString.number tomato.calcActiveTaskTime.end_)] []]
            else [])
        ++ documentedTaskElems isEmpty tomato children)
/-- The documented elements of a list of sibling tasks, in their order. -/
def documentedTaskElems (isEmpty : TaskTime → Bool) (tomato : Tomato) :
    List Task → List QDomNode
  | [] => []
  | t :: rest => documentedTaskElem isEmpty tomato t :: documentedTaskElems isEmpty tomato rest
end

/-- The documented file: a `TomatoTaskTracker` root holding one `Settings` element with the
two durations, then one `RootTask` element holding the elements of the top-level
tasks. -/
def documentedProjectElem (isEmpty : TaskTime → Bool) (tomato : Tomato) : QDomNode :=
  QDomNode.mk "TomatoTaskTracker" []
    [QDomNode.mk "Settings"
       [("workingtime", QString.number tomato.workingTime),
        ("restingtime", QString.number tomato.restingTime)] [],
     QDomNode.mk "RootTask" [] (documentedTaskElems isEmpty tomato tomato.rootTask.children)]

mutual
/-- The task with the intervals that have a non-positive start or end removed, in it and
in all its descendants. -/
def Task.positiveOnly : Task → Task
  | Task.mk id data children =>
    Task.mk id
      { data with times := data.times.filter (fun t => decide (0 < t.start ∧ 0 < t.end_)) }
      (Task.positiveOnlyList children)
/-- The same for a list of sibling tasks. -/
def Task.positiveOnlyList : List Task → List Task
  | [] => []
  | t :: rest => Task.positiveOnly t :: Task.positiveOnlyList rest
end

/-- Task data whose time limit and timestamps are all in the range of `qint64`. -/
def TaskData.inRange (data : TaskData) : Bool :=
  fitsInt64 data.timeLimit &&
    data.times.all (fun t => fitsInt64 t.start && fitsInt64 t.end_)

/-- Whether saving synthesizes no interval at all: the timer is neither working nor
over-working, or there is no active task, or the accrued interval is empty. -/
def noPhantom (isEmpty : TaskTime → Bool) (tomato : Tomato) : Bool :=
  !(tomato.state == State.Working || tomato.state == State.OverWorking)
    || tomato.activeTaskId == none
    || isEmpty tomato.calcActiveTaskTime

/-! ## Number conversions: reading what `number` wrote -/

namespace QString

theorem digitChar_facts (d : Nat) (h : d < 10) :
    digitValue (Nat.digitChar d) = some d ∧ isSpace (Nat.digitChar d) = false ∧
      Nat.digitChar d ≠ '-' ∧ Nat.digitChar d ≠ '+' := by
  interval_cases d <;> decide

theorem natDigitsAux_digits (fuel n : Nat) (acc : List Char)
    (hacc : ∀ c ∈ acc, ∃ d, d < 10 ∧ c = Nat.digitChar d) :
    ∀ c ∈ natDigitsAux fuel n acc, ∃ d, d < 10 ∧ c = Nat.digitChar d := by
  induction fuel generalizing n acc with
  | zero => simpa [natDigitsAux] using hacc
  | succ fuel ih =>
    unfold natDigitsAux
    split
    · intro c hc
      rcases List.mem_cons.1 hc with rfl | hc
      · exact ⟨n, by assumption, rfl⟩
      · exact hacc c hc
    · apply ih
      intro c hc
      rcases List.mem_cons.1 hc with rfl | hc
      · exact ⟨n % 10, Nat.mod_lt _ (by decide), rfl⟩
      · exact hacc c hc

theorem natDigitsAux_ne_nil (fuel n : Nat) (acc : List Char) :
    natDigitsAux (fuel + 1) n acc ≠ [] := by
  induction fuel generalizing n acc with
  | zero =>
    unfold natDigitsAux
    split
    · simp
    · simp [natDigitsAux]
  | succ fuel ih =>
    unfold natDigitsAux
    split
    · simp
    · exact ih _ _

theorem parseDigits_natDigitsAux (fuel n : Nat) (acc : List Char) (h : n < fuel) :
    parseDigits (natDigitsAux fuel n acc) 0 = parseDigits acc n := by
  induction fuel generalizing n acc with
  | zero => omega
  | succ fuel ih =>
    unfold natDigitsAux
    split
    · rename_i h10
      simp [parseDigits, (digitChar_facts n h10).1]
    · rw [ih _ _ (by omega)]
      simp only [parseDigits, (digitChar_facts (n % 10) (Nat.mod_lt _ (by decide))).1]
      congr 1
      omega

theorem natDigits_digits (n : Nat) :
    ∀ c ∈ natDigits n, ∃ d, d < 10 ∧ c = Nat.digitChar d :=
  natDigitsAux_digits _ _ _ (by simp)

theorem parseNat_natDigits (n : Nat) : parseNat (natDigits n) = some n := by
  have hne : natDigits n ≠ [] := natDigitsAux_ne_nil n n []
  have hp : parseDigits (natDigits n) 0 = some n := by
    unfold natDigits
    rw [parseDigits_natDigitsAux _ _ _ (by omega)]
    rfl
  cases hcs : natDigits n with
  | nil => exact absurd hcs hne
  | cons c ds => rw [hcs] at hp; exact hp

theorem dropWhile_isSpace_eq (cs : List Char) (h : ∀ c ∈ cs, isSpace c = false) :
    cs.dropWhile isSpace = cs := by
  cases cs with
  | nil => rfl
  | cons c rest => simp [List.dropWhile, h c (by simp)]

theorem trimmed_eq (cs : List Char) (h : ∀ c ∈ cs, isSpace c = false) : trimmed cs = cs := by
  unfold trimmed
  rw [dropWhile_isSpace_eq cs h, dropWhile_isSpace_eq cs.reverse (by simpa using h),
    List.reverse_reverse]

theorem parseInteger_number (n : Int) : parseInteger (number n).data = some n := by
  cases n with
  | ofNat m =>
    have hd := natDigits_digits m
    have hsp : ∀ c ∈ natDigits m, isSpace c = false := by
      intro c hc
      obtain ⟨d, hd10, rfl⟩ := hd c hc
      exact (digitChar_facts d hd10).2.1
    have hp := parseNat_natDigits m
    simp only [number, parseInteger]
    rw [trimmed_eq _ hsp]
    cases hcs : natDigits m with
    | nil => simp [hcs, parseNat] at hp
    | cons c ds =>
      obtain ⟨d, hd10, rfl⟩ := hd c (by simp [hcs])
      rw [hcs] at hp
      simp [(digitChar_facts d hd10).2.2.1, (digitChar_facts d hd10).2.2.2, hp]
  | negSucc m =>
    have hd := natDigits_digits (m + 1)
    have hsp : ∀ c ∈ '-' :: natDigits (m + 1), isSpace c = false := by
      intro c hc
      rcases List.mem_cons.1 hc with rfl | hc
      · decide
      · obtain ⟨d, hd10, rfl⟩ := hd c hc
        exact (digitChar_facts d hd10).2.1
    simp only [number, parseInteger]
    rw [trimmed_eq _ hsp]
    simp [parseNat_natDigits, Int.negSucc_eq]

theorem toLongLong_number (n : Int) (h : -2 ^ 63 ≤ n ∧ n < 2 ^ 63) :
    toLongLong (number n) = n := by
  simp only [toLongLong, parseInteger_number]
  rw [if_pos h]

theorem toInt_number (n : Int) (h : -2 ^ 31 ≤ n ∧ n < 2 ^ 31) :
    toInt (number n) = n := by
  simp only [toInt, parseInteger_number]
  rw [if_pos h]

end QString

/-! ## Serializer: shape of the elements -/

theorem appendTaskTimes_eq (times : List TaskTime) (n : String) (a : List (String × String))
    (c : List QDomNode) :
    appendTaskTimes times (QDomNode.mk n a c) = QDomNode.mk n a (c ++ times.map taskTimeElem) := by
  induction times generalizing c with
  | nil => simp [appendTaskTimes]
  | cons t rest ih => simp [appendTaskTimes, QDomNode.appendChild, ih]

theorem appendTaskElems_eq (isEmpty : TaskTime → Bool) (tomato : Tomato) (tasks : List Task)
    (n : String) (a : List (String × String)) (c : List QDomNode) :
    appendTaskElems isEmpty tomato tasks (QDomNode.mk n a c)
      = QDomNode.mk n a (c ++ tasks.map (createTaskElem isEmpty tomato)) := by
  induction tasks generalizing c with
  | nil => simp [appendTaskElems]
  | cons t rest ih => simp [appendTaskElems, QDomNode.appendChild, ih]

theorem taskTimeElem_eq (taskTime : TaskTime) :
    taskTimeElem taskTime
      = QDomNode.mk nsTaskTime
          [(attrStartTime, QString.number taskTime.start),
           (attrEndTime, QString.number taskTime.end_)] [] := by
  simp [taskTimeElem, createElement, QDomNode.setAttribute, QDomNode.setAttr, attrStartTime,
    attrEndTime]

theorem createTaskElem_eq (isEmpty : TaskTime → Bool) (tomato : Tomato) (id : Int)
    (data : TaskData) (children : List Task) :
    createTaskElem isEmpty tomato (Task.mk id data children)
      = QDomNode.mk nsTask
          [(attrTitle, data.title), (attrDesc, data.desc),
           (attrTimeLimit, QString.number data.timeLimit),
           (attrIsDone, QString.number (if data.isCompleted then 1 else 0))]
          (data.times.map taskTimeElem
            ++ (if synthesizes isEmpty tomato id then [taskTimeElem tomato.calcActiveTaskTime]
                else [])
            ++ children.map (createTaskElem isEmpty tomato)) := by
  rw [createTaskElem]
  simp only [createElement, QDomNode.setAttribute, QDomNode.setAttr, attrTitle, attrDesc,
    attrTimeLimit, attrIsDone, appendTaskTimes_eq, List.nil_append, String.reduceEq,
    if_false, synthesizes]
  by_cases h1 : (tomato.isActiveTask id
      && (tomato.state == State.Working || tomato.state == State.OverWorking)) = true
  · by_cases h2 : isEmpty tomato.calcActiveTaskTime = true
    · simp [h1, h2, appendTaskElems_eq]
    · simp [h1, h2, appendTaskElems_eq, QDomNode.appendChild]
  · simp [h1, appendTaskElems_eq]

theorem createTaskElem_nodeName (isEmpty : TaskTime → Bool) (tomato : Tomato) (task : Task) :
    (createTaskElem isEmpty tomato task).nodeName = nsTask := by
  obtain ⟨i, d, c⟩ := task
  rw [createTaskElem_eq]
  rfl

theorem createTaskElem_time_filter (isEmpty : TaskTime → Bool) (tomato : Tomato) (id : Int)
    (data : TaskData) (children : List Task) :
    (createTaskElem isEmpty tomato (Task.mk id data children)).childNodes.filter
        (fun c => c.nodeName = nsTaskTime)
      = data.times.map taskTimeElem
        ++ (if synthesizes isEmpty tomato id then [taskTimeElem tomato.calcActiveTaskTime]
            else []) := by
  have hne : nsTask ≠ nsTaskTime := by decide
  rw [createTaskElem_eq]
  simp only [QDomNode.childNodes, List.filter_append]
  have h1 : (data.times.map taskTimeElem).filter (fun c => c.nodeName = nsTaskTime)
      = data.times.map taskTimeElem := by
    apply List.filter_eq_self.2
    intro c hc
    obtain ⟨t, _, rfl⟩ := List.mem_map.1 hc
    simp [taskTimeElem_eq, QDomNode.nodeName]
  have h2 : (children.map (createTaskElem isEmpty tomato)).filter
      (fun c => c.nodeName = nsTaskTime) = [] := by
    apply List.filter_eq_nil_iff.2
    intro c hc
    obtain ⟨t, _, rfl⟩ := List.mem_map.1 hc
    simp [createTaskElem_nodeName, hne]
  rw [h1, h2, List.append_nil]
  congr 1
  split
  · simp [taskTimeElem_eq, QDomNode.nodeName]
  · rfl

/-! ## Loader: reading a task element -/

theorem taskTimesLoop_eq (nodes : List QDomNode) (acc : List TaskTime) :
    taskTimesLoop nodes acc
      = acc ++ (nodes.filter (fun c => c.nodeName = nsTaskTime)).filterMap validTime := by
  induction nodes generalizing acc with
  | nil => simp [taskTimesLoop]
  | cons c rest ih =>
    unfold taskTimesLoop
    by_cases hname : c.nodeName = nsTaskTime
    · by_cases hv : 0 < QString.toLongLong (c.attr attrStartTime "0")
          ∧ 0 < QString.toLongLong (c.attr attrEndTime "0")
      · simp [hname, hv, ih, validTime]
      · simp [hname, hv, ih, validTime]
    · simp [hname, ih]

theorem validTime_of_zero_or_negative (timeNode : QDomNode)
    (h : timeNode.attr attrStartTime "0" = "0" ∨ timeNode.attr attrEndTime "0" = "-5") :
    validTime timeNode = none := by
  have h0 : QString.toLongLong "0" = 0 := by decide
  have h5 : QString.toLongLong "-5" = -5 := by decide
  rcases h with h | h <;> simp [validTime, h, h0, h5]

/-! ## Properties of the serializer and of the element readers -/

/-- C2: the `Task` element of a task has, as children, a `Time` element per recorded
interval in stored order, then one more `Time` element for `calcActiveTaskTime()`
exactly when the task is the active one, the timer is `Working` or `OverWorking`
and that interval is not empty, then the elements of the child tasks; so its `Time`
children are the recorded intervals followed by that single extra one or by
nothing, and nothing extra is emitted when idle or for a task that is not active. -/
theorem createTaskElem_time_children (isEmpty : TaskTime → Bool) (tomato : Tomato)
    (task : Task) :
    (createTaskElem isEmpty tomato task).childNodes
        = task.data.times.map taskTimeElem
          ++ (if tomato.isActiveTask task.id = true
                ∧ (tomato.state = State.Working ∨ tomato.state = State.OverWorking)
                ∧ isEmpty tomato.calcActiveTaskTime = false
              then [taskTimeElem tomato.calcActiveTaskTime] else [])
          ++ task.children.map (createTaskElem isEmpty tomato)
      ∧ (createTaskElem isEmpty tomato task).childNodes.filter
            (fun c => c.nodeName = nsTaskTime)
        = task.data.times.map taskTimeElem
          ++ (if tomato.isActiveTask task.id = true
                ∧ (tomato.state = State.Working ∨ tomato.state = State.OverWorking)
                ∧ isEmpty tomato.calcActiveTaskTime = false
              then [taskTimeElem tomato.calcActiveTaskTime] else [])
      ∧ (∀ taskTime : TaskTime,
          (taskTimeElem taskTime).nodeName = nsTaskTime
            ∧ (taskTimeElem taskTime).attributes
              = [(attrStartTime, QString.number taskTime.start),
                 (attrEndTime, QString.number taskTime.end_)]) := by
  obtain ⟨id, data, children⟩ := task
  have hcond : (synthesizes isEmpty tomato id = true)
      ↔ (tomato.isActiveTask id = true
          ∧ (tomato.state = State.Working ∨ tomato.state = State.OverWorking)
          ∧ isEmpty tomato.calcActiveTaskTime = false) := by
    simp [synthesizes, and_assoc]
  refine ⟨?_, ?_, ?_⟩
  · rw [createTaskElem_eq]
    simp only [QDomNode.childNodes, Task.data, Task.id, Task.children, hcond]
  · rw [createTaskElem_time_filter]
    simp only [Task.data, Task.id, hcond]
  · intro taskTime
    rw [taskTimeElem_eq]
    exact ⟨rfl, rfl⟩

/-- C3: the intervals read from a task element are, in document order, those of its
direct `Time` children whose `starttime` and `endtime` both read as integers above
0, a missing or unreadable attribute counting as 0; a `Time` child with
`starttime="0"` or `endtime="-5"` gives no interval, and a task whose only `Time`
child is such a node gets none. -/
theorem taskTimesFromElem_keeps_valid (taskElem : QDomNode) :
    taskTimesFromElem taskElem
        = (taskElem.childNodes.filter (fun c => c.nodeName = nsTaskTime)).filterMap validTime
      ∧ (∀ timeNode : QDomNode,
          (timeNode.attr attrStartTime "0" = "0" ∨ timeNode.attr attrEndTime "0" = "-5") →
            validTime timeNode = none)
      ∧ (∀ timeNode : QDomNode,
          taskElem.childNodes.filter (fun c => c.nodeName = nsTaskTime) = [timeNode] →
          (timeNode.attr attrStartTime "0" = "0" ∨ timeNode.attr attrEndTime "0" = "-5") →
            taskTimesFromElem taskElem = []) := by
  have hloop : taskTimesFromElem taskElem
      = (taskElem.childNodes.filter (fun c => c.nodeName = nsTaskTime)).filterMap validTime := by
    simp [taskTimesFromElem, taskTimesLoop_eq]
  refine ⟨hloop, validTime_of_zero_or_negative, ?_⟩
  intro timeNode honly hbad
  rw [hloop, honly]
  simp [validTime_of_zero_or_negative timeNode hbad]

theorem taskTimesFromElem_keeps_valid_witness :
    taskTimesFromElem
        (QDomNode.mk "Task" [("title", "t")]
          [QDomNode.mk "Time" [("starttime", "5"), ("endtime", "-5")] []]) = []
      ∧ taskTimesFromElem
        (QDomNode.mk "Task" []
          [QDomNode.mk "Time" [("starttime", "0"), ("endtime", "9")] [],
           QDomNode.mk "Note" [("starttime", "3"), ("endtime", "4")] [],
           QDomNode.mk "Time" [("starttime", "7"), ("endtime", "9")] []])
        = [TaskTime.mk 7 9] :=
  ⟨(taskTimesFromElem_keeps_valid _).2.2
      (QDomNode.mk "Time" [("starttime", "5"), ("endtime", "-5")] []) rfl (Or.inr (by decide)),
   ((taskTimesFromElem_keeps_valid _).1).trans (by decide)⟩

/-- C4: a well-formed document whose root element is not named `TomatoTaskTracker` fails
to load, with the reason "incorrect file format", whatever the root contains. -/
theorem loadProjectFromXml_root_mismatch {σ : Type} (ops : TomatoOps σ)
    (DefaultWorkingTime DefaultRestingTime : Int) (documentElement : QDomNode) (tomato : σ)
    (hroot : documentElement.nodeName ≠ "TomatoTaskTracker") :
    (loadProjectFromXml ops DefaultWorkingTime DefaultRestingTime
        (InputFile.document documentElement) tomato).ok = false
      ∧ (loadProjectFromXml ops DefaultWorkingTime DefaultRestingTime
        (InputFile.document documentElement) tomato).reason = some "incorrect file format" := by
  have h : documentElement.nodeName ≠ nsProject := hroot
  simp [loadProjectFromXml, h, incorrectFileFormat]

/-- C10: the data read from a task element: the `title` and `desc` attributes, the empty
string when absent; the `timelimit` attribute read as an integer, 0 when absent;
the flag false when `isdone` is absent or "0" and true when it is "1"; an element
with no attributes and no children gives empty texts, 0, false and no intervals. -/
theorem taskDataFromElem_defaults (taskElem : QDomNode) :
    (taskDataFromElem taskElem).title = (taskElem.attributes.lookup "title").getD ""
      ∧ (taskDataFromElem taskElem).desc = (taskElem.attributes.lookup "desc").getD ""
      ∧ (taskDataFromElem taskElem).timeLimit
          = (match taskElem.attributes.lookup "timelimit" with
             | some v => QString.toLongLong v
             | none => 0)
      ∧ ((taskElem.attributes.lookup "isdone" = none
            ∨ taskElem.attributes.lookup "isdone" = some "0") →
          (taskDataFromElem taskElem).isCompleted = false)
      ∧ (taskElem.attributes.lookup "isdone" = some "1" →
          (taskDataFromElem taskElem).isCompleted = true)
      ∧ taskDataFromElem (QDomNode.mk "Task" [] []) = TaskData.mk "" "" 0 false [] := by
  have h0 : QString.toInt "" = 0 := by decide
  have h00 : QString.toInt "0" = 0 := by decide
  have h1 : QString.toInt "1" = 1 := by decide
  have hl : QString.toLongLong "" = 0 := by decide
  refine ⟨?_, ?_, ?_, ?_, ?_, ?_⟩
  · simp only [taskDataFromElem, QDomNode.attr, attrTitle]
    cases taskElem.attributes.lookup "title" <;> rfl
  · simp only [taskDataFromElem, QDomNode.attr, attrDesc]
    cases taskElem.attributes.lookup "desc" <;> rfl
  · simp only [taskDataFromElem, QDomNode.attr, attrTimeLimit]
    cases taskElem.attributes.lookup "timelimit" <;> simp [hl]
  · intro h
    simp only [taskDataFromElem, QDomNode.attr, attrIsDone]
    rcases h with h | h <;> simp [h, h0, h00]
  · intro h
    simp only [taskDataFromElem, QDomNode.attr, attrIsDone]
    simp [h, h1]
  · decide

theorem taskDataFromElem_defaults_witness :
    (taskDataFromElem (QDomNode.mk "Task" [("title", "a"), ("isdone", "1")] [])).isCompleted
        = true
      ∧ (taskDataFromElem (QDomNode.mk "Task" [("isdone", "0")] [])).isCompleted = false :=
  ⟨(taskDataFromElem_defaults _).2.2.2.2.1 (by decide),
   (taskDataFromElem_defaults _).2.2.2.1 (Or.inr (by decide))⟩

theorem loadProjectFromXml_root_mismatch_witness :
    (loadProjectFromXml Tomato.ops 1500 300
        (InputFile.document
          (QDomNode.mk "Project" []
            [QDomNode.mk "Settings" [("workingtime", "1500"), ("restingtime", "300")] [],
             QDomNode.mk "RootTask" [] [QDomNode.mk "Task" [("title", "a")] []]]))
        (Tomato.fresh 1500 300)).ok = false
      ∧ (loadProjectFromXml Tomato.ops 1500 300
        (InputFile.document
          (QDomNode.mk "Project" []
            [QDomNode.mk "Settings" [("workingtime", "1500"), ("restingtime", "300")] [],
             QDomNode.mk "RootTask" [] [QDomNode.mk "Task" [("title", "a")] []]]))
        (Tomato.fresh 1500 300)).reason = some "incorrect file format" :=
  loadProjectFromXml_root_mismatch Tomato.ops 1500 300 _ _ (by decide)

/-! ## Loader: settings on the modelled tracker -/

mutual
theorem parceTaskNode_settings : ∀ (node : QDomNode) (taskId : Int) (tomato : Tomato),
    (parceTaskNode Tomato.ops node taskId tomato).workingTime = tomato.workingTime
      ∧ (parceTaskNode Tomato.ops node taskId tomato).restingTime = tomato.restingTime
  | QDomNode.mk n a c, taskId, tomato => by
    rw [parceTaskNode]
    exact parceTaskLoop_settings c _ _
theorem parceTaskLoop_settings : ∀ (nodes : List QDomNode) (subTaskId : Int) (tomato : Tomato),
    (parceTaskLoop Tomato.ops nodes subTaskId tomato).workingTime = tomato.workingTime
      ∧ (parceTaskLoop Tomato.ops nodes subTaskId tomato).restingTime = tomato.restingTime
  | [], _, _ => by simp [parceTaskLoop]
  | node :: rest, subTaskId, tomato => by
    rw [parceTaskLoop]
    split
    · have h1 := parceTaskNode_settings node subTaskId tomato
      have h2 := parceTaskLoop_settings rest subTaskId
        (parceTaskNode Tomato.ops node subTaskId tomato)
      exact ⟨h2.1.trans h1.1, h2.2.trans h1.2⟩
    · exact parceTaskLoop_settings rest subTaskId tomato
end

theorem rootTaskLoop_settings (nodes : List QDomNode) (tomato : Tomato) :
    (rootTaskLoop Tomato.ops nodes tomato).workingTime = tomato.workingTime
      ∧ (rootTaskLoop Tomato.ops nodes tomato).restingTime = tomato.restingTime := by
  induction nodes generalizing tomato with
  | nil => simp [rootTaskLoop]
  | cons node rest ih =>
    rw [rootTaskLoop]
    split
    · have h1 := parceTaskNode_settings node (Tomato.ops.rootTaskId tomato) tomato
      have h2 := ih (parceTaskNode Tomato.ops node (Tomato.ops.rootTaskId tomato) tomato)
      exact ⟨h2.1.trans h1.1, h2.2.trans h1.2⟩
    · exact ih tomato

theorem projectLoop_append {σ : Type} (ops : TomatoOps σ) (dW dR : Int)
    (xs ys : List QDomNode) (tomato : σ) :
    projectLoop ops dW dR (xs ++ ys) tomato
      = projectLoop ops dW dR ys (projectLoop ops dW dR xs tomato) := by
  induction xs generalizing tomato with
  | nil => simp [projectLoop]
  | cons x rest ih =>
    simp only [List.cons_append, projectLoop]
    split
    · exact ih _
    · split
      · exact ih _
      · exact ih _

theorem projectLoop_settings_kept (dW dR : Int) (nodes : List QDomNode) (tomato : Tomato)
    (h : ∀ c ∈ nodes, c.nodeName ≠ nsSettings) :
    (projectLoop Tomato.ops dW dR nodes tomato).workingTime = tomato.workingTime
      ∧ (projectLoop Tomato.ops dW dR nodes tomato).restingTime = tomato.restingTime := by
  induction nodes generalizing tomato with
  | nil => simp [projectLoop]
  | cons node rest ih =>
    have hnode : node.nodeName ≠ nsSettings := h node (by simp)
    have hrest : ∀ c ∈ rest, c.nodeName ≠ nsSettings := fun c hc => h c (by simp [hc])
    rw [projectLoop]
    simp only [hnode, if_false]
    split
    · have h1 := rootTaskLoop_settings node.childNodes tomato
      have h2 := ih (rootTaskLoop Tomato.ops node.childNodes tomato) hrest
      exact ⟨h2.1.trans h1.1, h2.2.trans h1.2⟩
    · exact ih tomato hrest

theorem projectLoop_last_settings (dW dR : Int) (before after : List QDomNode)
    (settings : QDomNode) (tomato : Tomato) (hs : settings.nodeName = nsSettings)
    (hlast : ∀ c ∈ after, c.nodeName ≠ nsSettings) :
    (projectLoop Tomato.ops dW dR (before ++ settings :: after) tomato).workingTime
        = QString.toInt (settings.attr attrWorkingTime (QString.number dW))
      ∧ (projectLoop Tomato.ops dW dR (before ++ settings :: after) tomato).restingTime
        = QString.toInt (settings.attr attrRestingTime (QString.number dR)) := by
  rw [projectLoop_append, projectLoop]
  simp only [hs, if_true]
  have h := projectLoop_settings_kept dW dR after
    (Tomato.ops.setRestingTime
      (QString.toInt (settings.attr attrRestingTime (QString.number dR)))
      (Tomato.ops.setWorkingTime
        (QString.toInt (settings.attr attrWorkingTime (QString.number dW)))
        (projectLoop Tomato.ops dW dR before tomato))) hlast
  exact ⟨h.1, h.2⟩

/-! ## Properties of the settings block -/

/-- C6 (as stated, refuted): a `workingtime` attribute that is present and is a decimal
integer is not always used as given: "4294967296" does not fit an `int`, `toInt`
fails on it and the working duration becomes 0. -/
theorem settings_decimal_not_used_as_given :
    QString.number 4294967296 = "4294967296"
      ∧ (loadProjectFromXml Tomato.ops 1500 300
          (InputFile.document
            (QDomNode.mk "TomatoTaskTracker" []
              [QDomNode.mk "Settings" [("workingtime", "4294967296"), ("restingtime", "300")]
                []]))
          (Tomato.fresh 1500 300)).tomato.workingTime = 0 := by
  decide

/-- C6 (amended): with `int` defaults, when the last `Settings` element of a document
with the right root tag has no `workingtime` (resp. `restingtime`) attribute,
loading sets the working (resp. resting) duration to `DefaultWorkingTime` (resp.
`DefaultRestingTime`); an attribute that is present and reads as an integer in
the range of `int` is used as given. -/
theorem settings_missing_attribute_default (DefaultWorkingTime DefaultRestingTime : Int)
    (documentElement settings : QDomNode) (before after : List QDomNode) (tomato : Tomato)
    (hW : fitsInt32 DefaultWorkingTime = true) (hR : fitsInt32 DefaultRestingTime = true)
    (hroot : documentElement.nodeName = nsProject)
    (hchildren : documentElement.childNodes = before ++ settings :: after)
    (hs : settings.nodeName = nsSettings)
    (hlast : ∀ c ∈ after, c.nodeName ≠ nsSettings) :
    (settings.attributes.lookup "workingtime" = none →
        (loadProjectFromXml Tomato.ops DefaultWorkingTime DefaultRestingTime
          (InputFile.document documentElement) tomato).tomato.workingTime = DefaultWorkingTime)
      ∧ (settings.attributes.lookup "restingtime" = none →
        (loadProjectFromXml Tomato.ops DefaultWorkingTime DefaultRestingTime
          (InputFile.document documentElement) tomato).tomato.restingTime = DefaultRestingTime)
      ∧ (∀ (v : String) (n : Int), settings.attributes.lookup "workingtime" = some v →
          QString.parseInteger v.data = some n → fitsInt32 n = true →
        (loadProjectFromXml Tomato.ops DefaultWorkingTime DefaultRestingTime
          (InputFile.document documentElement) tomato).tomato.workingTime = n)
      ∧ (∀ (v : String) (n : Int), settings.attributes.lookup "restingtime" = some v →
          QString.parseInteger v.data = some n → fitsInt32 n = true →
        (loadProjectFromXml Tomato.ops DefaultWorkingTime DefaultRestingTime
          (InputFile.document documentElement) tomato).tomato.restingTime = n) := by
  have hload : (loadProjectFromXml Tomato.ops DefaultWorkingTime DefaultRestingTime
      (InputFile.document documentElement) tomato).tomato
        = projectLoop Tomato.ops DefaultWorkingTime DefaultRestingTime
            (before ++ settings :: after) tomato := by
    simp [loadProjectFromXml, hroot, hchildren]
  have hlastS := projectLoop_last_settings DefaultWorkingTime DefaultRestingTime before after
    settings tomato hs hlast
  have hW' : -2 ^ 31 ≤ DefaultWorkingTime ∧ DefaultWorkingTime < 2 ^ 31 := by
    simpa [fitsInt32] using hW
  have hR' : -2 ^ 31 ≤ DefaultRestingTime ∧ DefaultRestingTime < 2 ^ 31 := by
    simpa [fitsInt32] using hR
  rw [hload, hlastS.1, hlastS.2]
  refine ⟨?_, ?_, ?_, ?_⟩
  · intro h
    have : settings.attributes.lookup attrWorkingTime = none := h
    simp only [QDomNode.attr, this]
    exact QString.toInt_number _ hW'
  · intro h
    have : settings.attributes.lookup attrRestingTime = none := h
    simp only [QDomNode.attr, this]
    exact QString.toInt_number _ hR'
  · intro v n h hp hn
    have : settings.attributes.lookup attrWorkingTime = some v := h
    have hn' : -2 ^ 31 ≤ n ∧ n < 2 ^ 31 := by simpa [fitsInt32] using hn
    simp only [QDomNode.attr, this, QString.toInt, hp]
    rw [if_pos hn']
  · intro v n h hp hn
    have : settings.attributes.lookup attrRestingTime = some v := h
    have hn' : -2 ^ 31 ≤ n ∧ n < 2 ^ 31 := by simpa [fitsInt32] using hn
    simp only [QDomNode.attr, this, QString.toInt, hp]
    rw [if_pos hn']

theorem settings_missing_attribute_default_witness :
    (loadProjectFromXml Tomato.ops 1500 300
        (InputFile.document
          (QDomNode.mk "TomatoTaskTracker" []
            [QDomNode.mk "Settings" [("workingtime", "1200")] [],
             QDomNode.mk "RootTask" [] [QDomNode.mk "Task" [("title", "a")] []]]))
        (Tomato.fresh 7 9)).tomato.restingTime = 300
      ∧ (loadProjectFromXml Tomato.ops 1500 300
        (InputFile.document
          (QDomNode.mk "TomatoTaskTracker" []
            [QDomNode.mk "Settings" [("workingtime", "1200")] [],
             QDomNode.mk "RootTask" [] [QDomNode.mk "Task" [("title", "a")] []]]))
        (Tomato.fresh 7 9)).tomato.workingTime = 1200 :=
  ⟨(settings_missing_attribute_default 1500 300
      (QDomNode.mk "TomatoTaskTracker" []
        [QDomNode.mk "Settings" [("workingtime", "1200")] [],
         QDomNode.mk "RootTask" [] [QDomNode.mk "Task" [("title", "a")] []]])
      (QDomNode.mk "Settings" [("workingtime", "1200")] []) []
      [QDomNode.mk "RootTask" [] [QDomNode.mk "Task" [("title", "a")] []]]
      (Tomato.fresh 7 9) (by decide) (by decide) rfl rfl rfl (by decide)).2.1 (by decide),
   (settings_missing_attribute_default 1500 300
      (QDomNode.mk "TomatoTaskTracker" []
        [QDomNode.mk "Settings" [("workingtime", "1200")] [],
         QDomNode.mk "RootTask" [] [QDomNode.mk "Task" [("title", "a")] []]])
      (QDomNode.mk "Settings" [("workingtime", "1200")] []) []
      [QDomNode.mk "RootTask" [] [QDomNode.mk "Task" [("title", "a")] []]]
      (Tomato.fresh 7 9) (by decide) (by decide) rfl rfl rfl (by decide)).2.2.1
      "1200" 1200 (by decide) (by decide) (by decide)⟩

/-- C7 (as stated, refuted): with `workingtime="abc"` and `restingtime="x"`, loading
sets both durations to 0, not to the defaults 1500 and 300. -/
theorem settings_unparseable_not_default :
    (loadProjectFromXml Tomato.ops 1500 300
        (InputFile.document
          (QDomNode.mk "TomatoTaskTracker" []
            [QDomNode.mk "Settings" [("workingtime", "abc"), ("restingtime", "x")] []]))
        (Tomato.fresh 1500 300)).tomato.workingTime = 0
      ∧ (loadProjectFromXml Tomato.ops 1500 300
        (InputFile.document
          (QDomNode.mk "TomatoTaskTracker" []
            [QDomNode.mk "Settings" [("workingtime", "abc"), ("restingtime", "x")] []]))
        (Tomato.fresh 1500 300)).tomato.restingTime = 0 := by
  decide

/-- C7 (amended): when the last `Settings` element of a document with the right root tag
has a `workingtime` (resp. `restingtime`) attribute whose value does not read as an
integer in the range of `int`, loading sets the working (resp. resting) duration
to 0. -/
theorem settings_unparseable_attribute_zero (DefaultWorkingTime DefaultRestingTime : Int)
    (documentElement settings : QDomNode) (before after : List QDomNode) (tomato : Tomato)
    (hroot : documentElement.nodeName = nsProject)
    (hchildren : documentElement.childNodes = before ++ settings :: after)
    (hs : settings.nodeName = nsSettings)
    (hlast : ∀ c ∈ after, c.nodeName ≠ nsSettings) :
    (∀ v : String, settings.attributes.lookup "workingtime" = some v →
        (∀ n : Int, QString.parseInteger v.data = some n → fitsInt32 n = false) →
        (loadProjectFromXml Tomato.ops DefaultWorkingTime DefaultRestingTime
          (InputFile.document documentElement) tomato).tomato.workingTime = 0)
      ∧ (∀ v : String, settings.attributes.lookup "restingtime" = some v →
        (∀ n : Int, QString.parseInteger v.data = some n → fitsInt32 n = false) →
        (loadProjectFromXml Tomato.ops DefaultWorkingTime DefaultRestingTime
          (InputFile.document documentElement) tomato).tomato.restingTime = 0) := by
  have hload : (loadProjectFromXml Tomato.ops DefaultWorkingTime DefaultRestingTime
      (InputFile.document documentElement) tomato).tomato
        = projectLoop Tomato.ops DefaultWorkingTime DefaultRestingTime
            (before ++ settings :: after) tomato := by
    simp [loadProjectFromXml, hroot, hchildren]
  have hlastS := projectLoop_last_settings DefaultWorkingTime DefaultRestingTime before after
    settings tomato hs hlast
  have hzero : ∀ v : String,
      (∀ n : Int, QString.parseInteger v.data = some n → fitsInt32 n = false) →
        QString.toInt v = 0 := by
    intro v hv
    unfold QString.toInt
    cases hp : QString.parseInteger v.data with
    | none => rfl
    | some n =>
      have hn := hv n hp
      have hn' : ¬ (-2 ^ 31 ≤ n ∧ n < 2 ^ 31) := by simpa [fitsInt32] using hn
      simp only []
      rw [if_neg hn']
  rw [hload, hlastS.1, hlastS.2]
  refine ⟨?_, ?_⟩
  · intro v h hv
    have : settings.attributes.lookup attrWorkingTime = some v := h
    simp only [QDomNode.attr, this]
    exact hzero v hv
  · intro v h hv
    have : settings.attributes.lookup attrRestingTime = some v := h
    simp only [QDomNode.attr, this]
    exact hzero v hv

theorem settings_unparseable_attribute_zero_witness :
    (loadProjectFromXml Tomato.ops 1500 300
        (InputFile.document
          (QDomNode.mk "TomatoTaskTracker" []
            [QDomNode.mk "RootTask" [] [],
             QDomNode.mk "Settings" [("workingtime", "25 min")] []]))
        (Tomato.fresh 7 9)).tomato.workingTime = 0 :=
  (settings_unparseable_attribute_zero 1500 300
      (QDomNode.mk "TomatoTaskTracker" []
        [QDomNode.mk "RootTask" [] [],
         QDomNode.mk "Settings" [("workingtime", "25 min")] []])
      (QDomNode.mk "Settings" [("workingtime", "25 min")] [])
      [QDomNode.mk "RootTask" [] []] [] (Tomato.fresh 7 9) rfl rfl rfl (by decide)).1
    "25 min" (by decide)
    (fun n h => by
      rw [show QString.parseInteger "25 min".data = none by decide] at h
      cases h)

/-- C8 (as stated, refuted): a tracker whose durations are 10 and 20 still has them
after loading a document with the right root tag and no `Settings` element; they
are not the defaults 1500 and 300. -/
theorem no_settings_not_default :
    (loadProjectFromXml Tomato.ops 1500 300
        (InputFile.document
          (QDomNode.mk "TomatoTaskTracker" [] [QDomNode.mk "RootTask" [] []]))
        (Tomato.fresh 10 20)).ok = true
      ∧ (loadProjectFromXml Tomato.ops 1500 300
        (InputFile.document
          (QDomNode.mk "TomatoTaskTracker" [] [QDomNode.mk "RootTask" [] []]))
        (Tomato.fresh 10 20)).tomato.workingTime = 10
      ∧ (loadProjectFromXml Tomato.ops 1500 300
        (InputFile.document
          (QDomNode.mk "TomatoTaskTracker" [] [QDomNode.mk "RootTask" [] []]))
        (Tomato.fresh 10 20)).tomato.restingTime = 20 := by
  decide

/-- C8 (amended): loading a document with the right root tag and no `Settings` element
succeeds and leaves the working and resting durations of the tracker as they were
before the load. -/
theorem no_settings_durations_unchanged (DefaultWorkingTime DefaultRestingTime : Int)
    (documentElement : QDomNode) (tomato : Tomato)
    (hroot : documentElement.nodeName = nsProject)
    (hnone : ∀ c ∈ documentElement.childNodes, c.nodeName ≠ nsSettings) :
    (loadProjectFromXml Tomato.ops DefaultWorkingTime DefaultRestingTime
        (InputFile.document documentElement) tomato).ok = true
      ∧ (loadProjectFromXml Tomato.ops DefaultWorkingTime DefaultRestingTime
        (InputFile.document documentElement) tomato).tomato.workingTime = tomato.workingTime
      ∧ (loadProjectFromXml Tomato.ops DefaultWorkingTime DefaultRestingTime
        (InputFile.document documentElement) tomato).tomato.restingTime
          = tomato.restingTime := by
  have h := projectLoop_settings_kept DefaultWorkingTime DefaultRestingTime
    documentElement.childNodes tomato hnone
  simp [loadProjectFromXml, hroot, h.1, h.2]

theorem no_settings_durations_unchanged_witness :
    (loadProjectFromXml Tomato.ops 1500 300
        (InputFile.document
          (QDomNode.mk "TomatoTaskTracker" []
            [QDomNode.mk "RootTask" [] [QDomNode.mk "Task" [("title", "a")] []]]))
        (Tomato.fresh 10 20)).ok = true
      ∧ (loadProjectFromXml Tomato.ops 1500 300
        (InputFile.document
          (QDomNode.mk "TomatoTaskTracker" []
            [QDomNode.mk "RootTask" [] [QDomNode.mk "Task" [("title", "a")] []]]))
        (Tomato.fresh 10 20)).tomato.workingTime = (Tomato.fresh 10 20).workingTime
      ∧ (loadProjectFromXml Tomato.ops 1500 300
        (InputFile.document
          (QDomNode.mk "TomatoTaskTracker" []
            [QDomNode.mk "RootTask" [] [QDomNode.mk "Task" [("title", "a")] []]]))
        (Tomato.fresh 10 20)).tomato.restingTime = (Tomato.fresh 10 20).restingTime :=
  no_settings_durations_unchanged 1500 300
    (QDomNode.mk "TomatoTaskTracker" []
      [QDomNode.mk "RootTask" [] [QDomNode.mk "Task" [("title", "a")] []]])
    (Tomato.fresh 10 20) rfl (by decide)

/-! ## Loader: the calls made on the tracker -/

theorem addedNodes_append (xs ys : List QDomNode) (parentId : Int) (calls : List Call) :
    addedNodes (xs ++ ys) parentId calls
      = (addedNodes xs parentId calls).bind (addedNodes ys parentId) := by
  induction xs generalizing calls with
  | nil => simp [addedNodes]
  | cons x rest ih =>
    simp only [List.cons_append, addedNodes]
    split
    · cases addedNode x parentId calls with
      | none => rfl
      | some calls1 => exact ih calls1
    · exact ih calls

theorem countTaskNodes_append (xs ys : List QDomNode) :
    countTaskNodes (xs ++ ys) = countTaskNodes xs + countTaskNodes ys := by
  induction xs with
  | nil => simp [countTaskNodes]
  | cons x rest ih =>
    rw [List.cons_append, countTaskNodes, countTaskNodes, ih]
    omega

theorem logged_addTask {σ : Type} (ops : TomatoOps σ) (p : Int) (d : TaskData) (s : σ)
    (log : List Call) :
    ops.logged.addTask p d (s, log)
      = ((ops.addTask p d s).1,
          ((ops.addTask p d s).2, log ++ [Call.addTask p d (ops.addTask p d s).1])) := rfl

theorem logged_setters {σ : Type} (ops : TomatoOps σ) (w r : Int) (s : σ) (log : List Call) :
    ops.logged.setRestingTime r (ops.logged.setWorkingTime w (s, log))
      = (ops.setRestingTime r (ops.setWorkingTime w s),
          log ++ [Call.setWorkingTime w] ++ [Call.setRestingTime r]) := rfl

mutual
theorem parceTaskNode_logged {σ : Type} (ops : TomatoOps σ)
    (hA : ∀ p d s, ops.rootTaskId (ops.addTask p d s).2 = ops.rootTaskId s) :
    ∀ (node : QDomNode) (taskId : Int) (s : σ) (log : List Call),
      ∃ calls : List Call,
        parceTaskNode ops.logged node taskId (s, log)
            = (parceTaskNode ops node taskId s, log ++ calls)
          ∧ (∀ k, addedNode node taskId (calls ++ k) = some k)
          ∧ calls.filter Call.isAddTask = calls
          ∧ calls.length = countTaskNode node
          ∧ ops.rootTaskId (parceTaskNode ops node taskId s) = ops.rootTaskId s
  | QDomNode.mk n a c, taskId, s, log => by
    obtain ⟨calls, h1, h2, h3, h4, h5⟩ := parceTaskLoop_logged ops hA c
      (ops.addTask taskId (taskDataFromElem (QDomNode.mk n a c)) s).1
      (ops.addTask taskId (taskDataFromElem (QDomNode.mk n a c)) s).2
      (log ++ [Call.addTask taskId (taskDataFromElem (QDomNode.mk n a c))
        (ops.addTask taskId (taskDataFromElem (QDomNode.mk n a c)) s).1])
    refine ⟨Call.addTask taskId (taskDataFromElem (QDomNode.mk n a c))
      (ops.addTask taskId (taskDataFromElem (QDomNode.mk n a c)) s).1 :: calls,
      ?_, ?_, ?_, ?_, ?_⟩
    · rw [parceTaskNode, parceTaskNode]
      simp only [logged_addTask]
      rw [h1]
      simp
    · intro k
      simp only [List.cons_append, addedNode, true_and, and_self, if_true]
      exact h2 k
    · simp [List.filter_cons, Call.isAddTask, h3]
    · simp [countTaskNode, h4]; omega
    · rw [parceTaskNode]
      exact h5.trans (hA _ _ _)
theorem parceTaskLoop_logged {σ : Type} (ops : TomatoOps σ)
    (hA : ∀ p d s, ops.rootTaskId (ops.addTask p d s).2 = ops.rootTaskId s) :
    ∀ (nodes : List QDomNode) (subTaskId : Int) (s : σ) (log : List Call),
      ∃ calls : List Call,
        parceTaskLoop ops.logged nodes subTaskId (s, log)
            = (parceTaskLoop ops nodes subTaskId s, log ++ calls)
          ∧ (∀ k, addedNodes nodes subTaskId (calls ++ k) = some k)
          ∧ calls.filter Call.isAddTask = calls
          ∧ calls.length = countTaskNodes nodes
          ∧ ops.rootTaskId (parceTaskLoop ops nodes subTaskId s) = ops.rootTaskId s
  | [], subTaskId, s, log => ⟨[], by simp [parceTaskLoop, addedNodes, countTaskNodes]⟩
  | node :: rest, subTaskId, s, log => by
    by_cases hname : node.nodeName = nsTask
    · obtain ⟨calls1, a1, a2, a3, a4, a5⟩ := parceTaskNode_logged ops hA node subTaskId s log
      obtain ⟨calls2, b1, b2, b3, b4, b5⟩ := parceTaskLoop_logged ops hA rest subTaskId
        (parceTaskNode ops node subTaskId s) (log ++ calls1)
      refine ⟨calls1 ++ calls2, ?_, ?_, ?_, ?_, ?_⟩
      · rw [parceTaskLoop, parceTaskLoop]
        simp only [hname, if_true]
        rw [a1, b1, List.append_assoc]
      · intro k
        simp only [addedNodes, hname, if_true, List.append_assoc, a2 (calls2 ++ k)]
        exact b2 k
      · rw [List.filter_append, a3, b3]
      · simp [countTaskNodes, hname, a4, b4]
      · rw [parceTaskLoop]
        simp only [hname, if_true]
        exact b5.trans a5
    · obtain ⟨calls2, b1, b2, b3, b4, b5⟩ := parceTaskLoop_logged ops hA rest subTaskId s log
      refine ⟨calls2, ?_, ?_, b3, ?_, ?_⟩
      · rw [parceTaskLoop, parceTaskLoop]
        simp only [hname, if_false]
        exact b1
      · intro k
        simp only [addedNodes, hname, if_false]
        exact b2 k
      · simp [countTaskNodes, hname, b4]
      · rw [parceTaskLoop]
        simp only [hname, if_false]
        exact b5
end

theorem rootTaskLoop_logged {σ : Type} (ops : TomatoOps σ)
    (hA : ∀ p d s, ops.rootTaskId (ops.addTask p d s).2 = ops.rootTaskId s)
    (nodes : List QDomNode) (s : σ) (log : List Call) :
    ∃ calls : List Call,
      rootTaskLoop ops.logged nodes (s, log) = (rootTaskLoop ops nodes s, log ++ calls)
        ∧ (∀ k, addedNodes nodes (ops.rootTaskId s) (calls ++ k) = some k)
        ∧ calls.filter Call.isAddTask = calls
        ∧ calls.length = countTaskNodes nodes
        ∧ ops.rootTaskId (rootTaskLoop ops nodes s) = ops.rootTaskId s := by
  induction nodes generalizing s log with
  | nil => exact ⟨[], by simp [rootTaskLoop, addedNodes, countTaskNodes]⟩
  | cons node rest ih =>
    by_cases hname : node.nodeName = nsTask
    · obtain ⟨calls1, a1, a2, a3, a4, a5⟩ :=
        parceTaskNode_logged ops hA node (ops.rootTaskId s) s log
      obtain ⟨calls2, b1, b2, b3, b4, b5⟩ :=
        ih (parceTaskNode ops node (ops.rootTaskId s) s) (log ++ calls1)
      rw [a5] at b2
      refine ⟨calls1 ++ calls2, ?_, ?_, ?_, ?_, ?_⟩
      · rw [rootTaskLoop, rootTaskLoop]
        simp only [hname, if_true]
        have hid : ops.logged.rootTaskId (s, log) = ops.rootTaskId s := rfl
        rw [hid, a1, b1, List.append_assoc]
      · intro k
        simp only [addedNodes, hname, if_true, List.append_assoc, a2 (calls2 ++ k)]
        exact b2 k
      · rw [List.filter_append, a3, b3]
      · simp [countTaskNodes, hname, a4, b4]
      · rw [rootTaskLoop]
        simp only [hname, if_true]
        exact b5.trans a5
    · obtain ⟨calls2, b1, b2, b3, b4, b5⟩ := ih s log
      refine ⟨calls2, ?_, ?_, b3, ?_, ?_⟩
      · rw [rootTaskLoop, rootTaskLoop]
        simp only [hname, if_false]
        exact b1
      · intro k
        simp only [addedNodes, hname, if_false]
        exact b2 k
      · simp [countTaskNodes, hname, b4]
      · rw [rootTaskLoop]
        simp only [hname, if_false]
        exact b5

theorem projectLoop_logged {σ : Type} (ops : TomatoOps σ) (dW dR : Int)
    (hW : ∀ n s, ops.rootTaskId (ops.setWorkingTime n s) = ops.rootTaskId s)
    (hR : ∀ n s, ops.rootTaskId (ops.setRestingTime n s) = ops.rootTaskId s)
    (hA : ∀ p d s, ops.rootTaskId (ops.addTask p d s).2 = ops.rootTaskId s)
    (nodes : List QDomNode) (s : σ) (log : List Call) :
    ∃ calls : List Call,
      projectLoop ops.logged dW dR nodes (s, log)
          = (projectLoop ops dW dR nodes s, log ++ calls)
        ∧ (∀ k, addedNodes
              ((nodes.filter (fun c => c.nodeName = nsRootTask)).flatMap (fun c => c.childNodes))
              (ops.rootTaskId s) (calls.filter Call.isAddTask ++ k) = some k)
        ∧ (calls.filter Call.isAddTask).length
            = countTaskNodes
              ((nodes.filter (fun c => c.nodeName = nsRootTask)).flatMap (fun c => c.childNodes))
        ∧ ops.rootTaskId (projectLoop ops dW dR nodes s) = ops.rootTaskId s := by
  induction nodes generalizing s log with
  | nil => exact ⟨[], by simp [projectLoop, addedNodes, countTaskNodes]⟩
  | cons node rest ih =>
    have hne : nsSettings ≠ nsRootTask := by decide
    by_cases hset : node.nodeName = nsSettings
    · have hnr : node.nodeName ≠ nsRootTask := by rw [hset]; exact hne
      obtain ⟨calls2, b1, b2, b3, b5⟩ := ih
        (ops.setRestingTime (QString.toInt (node.attr attrRestingTime (QString.number dR)))
          (ops.setWorkingTime (QString.toInt (node.attr attrWorkingTime (QString.number dW)))
            s))
        (log ++ [Call.setWorkingTime
            (QString.toInt (node.attr attrWorkingTime (QString.number dW)))]
          ++ [Call.setRestingTime
            (QString.toInt (node.attr attrRestingTime (QString.number dR)))])
      rw [hR, hW] at b2
      refine ⟨Call.setWorkingTime (QString.toInt (node.attr attrWorkingTime (QString.number dW)))
        :: Call.setRestingTime (QString.toInt (node.attr attrRestingTime (QString.number dR)))
        :: calls2, ?_, ?_, ?_, ?_⟩
      · rw [projectLoop, projectLoop]
        simp only [hset, if_true, logged_setters]
        rw [b1]
        simp
      · intro k
        simpa [List.filter_cons, Call.isAddTask, hnr] using b2 k
      · simpa [List.filter_cons, Call.isAddTask, hnr] using b3
      · rw [projectLoop]
        simp only [hset, if_true]
        rw [b5, hR, hW]
    · by_cases hrt : node.nodeName = nsRootTask
      · obtain ⟨calls1, a1, a2, a3, a4, a5⟩ := rootTaskLoop_logged ops hA node.childNodes s log
        obtain ⟨calls2, b1, b2, b3, b5⟩ :=
          ih (rootTaskLoop ops node.childNodes s) (log ++ calls1)
        rw [a5] at b2
        refine ⟨calls1 ++ calls2, ?_, ?_, ?_, ?_⟩
        · rw [projectLoop, projectLoop]
          rw [if_neg hset, if_neg hset, if_pos hrt, if_pos hrt, a1, b1, List.append_assoc]
        · intro k
          simp only [List.filter_cons, hrt, decide_True, if_true, List.flatMap_cons,
            addedNodes_append, List.filter_append, a3, List.append_assoc,
            a2 (calls2.filter Call.isAddTask ++ k), Option.some_bind]
          exact b2 k
        · simp only [List.filter_cons, hrt, decide_True, if_true, List.flatMap_cons,
            countTaskNodes_append, List.filter_append, a3, List.length_append, a4, b3]
        · rw [projectLoop, if_neg hset, if_pos hrt]
          exact b5.trans a5
      · obtain ⟨calls2, b1, b2, b3, b5⟩ := ih s log
        refine ⟨calls2, ?_, ?_, ?_, ?_⟩
        · rw [projectLoop, projectLoop]
          simp only [hset, hrt, if_false]
          exact b1
        · intro k
          simpa [List.filter_cons, hrt] using b2 k
        · simpa [List.filter_cons, hrt] using b3
        · rw [projectLoop]
          simp only [hset, hrt, if_false]
          exact b5

theorem appendUnder_id (parentId : Int) (added : List Task) (task : Task) :
    (Task.appendUnder parentId added task).id = task.id := by
  cases task with
  | mk id data children =>
    rw [Task.appendUnder]
    rfl

/-- C5: on a document with the right root tag, and a tracker whose root id does not
change under the calls, the `addTask` calls of a load are exactly one per `Task`
node reachable from a `RootTask` block through `Task` nodes only, in document
pre-order: a `Task` directly under `RootTask` is added under `rootTaskId`, a nested
one under the id `addTask` returned for its enclosing `Task`, siblings in document
order; recording the calls does not change what the load does. -/
theorem loadProjectFromXml_adds_in_preorder {σ : Type} (ops : TomatoOps σ)
    (DefaultWorkingTime DefaultRestingTime : Int) (documentElement : QDomNode) (tomato : σ)
    (hroot : documentElement.nodeName = nsProject)
    (hW : ∀ n s, ops.rootTaskId (ops.setWorkingTime n s) = ops.rootTaskId s)
    (hR : ∀ n s, ops.rootTaskId (ops.setRestingTime n s) = ops.rootTaskId s)
    (hA : ∀ p d s, ops.rootTaskId (ops.addTask p d s).2 = ops.rootTaskId s) :
    addedNodes (rootTaskChildren documentElement) (ops.rootTaskId tomato)
        ((loadProjectFromXml ops.logged DefaultWorkingTime DefaultRestingTime
          (InputFile.document documentElement) (tomato, [])).tomato.2.filter Call.isAddTask)
        = some []
      ∧ ((loadProjectFromXml ops.logged DefaultWorkingTime DefaultRestingTime
          (InputFile.document documentElement) (tomato, [])).tomato.2.filter
            Call.isAddTask).length
        = countTaskNodes (rootTaskChildren documentElement)
      ∧ (loadProjectFromXml ops.logged DefaultWorkingTime DefaultRestingTime
          (InputFile.document documentElement) (tomato, [])).tomato.1
        = (loadProjectFromXml ops DefaultWorkingTime DefaultRestingTime
          (InputFile.document documentElement) tomato).tomato := by
  obtain ⟨calls, h1, h2, h3, _⟩ := projectLoop_logged ops DefaultWorkingTime
    DefaultRestingTime hW hR hA documentElement.childNodes tomato []
  have hl : (loadProjectFromXml ops.logged DefaultWorkingTime DefaultRestingTime
      (InputFile.document documentElement) (tomato, [])).tomato
        = (projectLoop ops DefaultWorkingTime DefaultRestingTime documentElement.childNodes
            tomato, calls) := by
    simp [loadProjectFromXml, hroot, h1]
  have hu : (loadProjectFromXml ops DefaultWorkingTime DefaultRestingTime
      (InputFile.document documentElement) tomato).tomato
        = projectLoop ops DefaultWorkingTime DefaultRestingTime documentElement.childNodes
            tomato := by
    simp [loadProjectFromXml, hroot]
  rw [hl, hu]
  refine ⟨?_, h3, rfl⟩
  have := h2 []
  simpa [rootTaskChildren] using this

theorem loadProjectFromXml_adds_in_preorder_witness :
    addedNodes
        (rootTaskChildren
          (QDomNode.mk "TomatoTaskTracker" []
            [QDomNode.mk "Settings" [("workingtime", "1500")] [],
             QDomNode.mk "RootTask" []
               [QDomNode.mk "Task" [("title", "a")]
                  [QDomNode.mk "Time" [("starttime", "3"), ("endtime", "4")] [],
                   QDomNode.mk "Task" [("title", "b")] [],
                   QDomNode.mk "Note" [] [QDomNode.mk "Task" [("title", "x")] []]],
                QDomNode.mk "Task" [("title", "c")] []]]))
        (Tomato.ops.rootTaskId (Tomato.fresh 1500 300))
        ((loadProjectFromXml Tomato.ops.logged 1500 300
          (InputFile.document
            (QDomNode.mk "TomatoTaskTracker" []
              [QDomNode.mk "Settings" [("workingtime", "1500")] [],
               QDomNode.mk "RootTask" []
                 [QDomNode.mk "Task" [("title", "a")]
                    [QDomNode.mk "Time" [("starttime", "3"), ("endtime", "4")] [],
                     QDomNode.mk "Task" [("title", "b")] [],
                     QDomNode.mk "Note" [] [QDomNode.mk "Task" [("title", "x")] []]],
                  QDomNode.mk "Task" [("title", "c")] []]]))
          (Tomato.fresh 1500 300, [])).tomato.2.filter Call.isAddTask)
        = some [] :=
  (loadProjectFromXml_adds_in_preorder Tomato.ops 1500 300
    (QDomNode.mk "TomatoTaskTracker" []
      [QDomNode.mk "Settings" [("workingtime", "1500")] [],
       QDomNode.mk "RootTask" []
         [QDomNode.mk "Task" [("title", "a")]
            [QDomNode.mk "Time" [("starttime", "3"), ("endtime", "4")] [],
             QDomNode.mk "Task" [("title", "b")] [],
             QDomNode.mk "Note" [] [QDomNode.mk "Task" [("title", "x")] []]],
          QDomNode.mk "Task" [("title", "c")] []]])
    (Tomato.fresh 1500 300) rfl (fun _ _ => rfl) (fun _ _ => rfl)
    (fun p _ s => appendUnder_id p _ s.rootTask)).1

/-! ## Loader: nodes it does not look at -/

theorem rootTaskLoop_append {σ : Type} (ops : TomatoOps σ) (xs ys : List QDomNode)
    (tomato : σ) :
    rootTaskLoop ops (xs ++ ys) tomato = rootTaskLoop ops ys (rootTaskLoop ops xs tomato) := by
  induction xs generalizing tomato with
  | nil => simp [rootTaskLoop]
  | cons x rest ih =>
    simp only [List.cons_append, rootTaskLoop]
    split
    · exact ih _
    · exact ih _

theorem parceTaskLoop_append {σ : Type} (ops : TomatoOps σ) (xs ys : List QDomNode)
    (subTaskId : Int) (tomato : σ) :
    parceTaskLoop ops (xs ++ ys) subTaskId tomato
      = parceTaskLoop ops ys subTaskId (parceTaskLoop ops xs subTaskId tomato) := by
  induction xs generalizing tomato with
  | nil => simp [parceTaskLoop]
  | cons x rest ih =>
    rw [List.cons_append, parceTaskLoop, parceTaskLoop]
    split
    · exact ih _
    · exact ih _

theorem taskTimesLoop_append (xs ys : List QDomNode) (acc : List TaskTime) :
    taskTimesLoop (xs ++ ys) acc = taskTimesLoop ys (taskTimesLoop xs acc) := by
  simp [taskTimesLoop_eq, List.filter_append, List.filterMap_append]

theorem parceTaskNode_congr {σ : Type} (ops : TomatoOps σ) (n : String)
    (a : List (String × String)) (c c' : List QDomNode)
    (hloop : ∀ id t, parceTaskLoop ops c' id t = parceTaskLoop ops c id t)
    (htimes : ∀ acc, taskTimesLoop c' acc = taskTimesLoop c acc) (taskId : Int) (tomato : σ) :
    parceTaskNode ops (QDomNode.mk n a c') taskId tomato
      = parceTaskNode ops (QDomNode.mk n a c) taskId tomato := by
  have hdata : taskDataFromElem (QDomNode.mk n a c') = taskDataFromElem (QDomNode.mk n a c) := by
    simp [taskDataFromElem, taskTimesFromElem, QDomNode.childNodes, QDomNode.attr,
      QDomNode.attributes, htimes]
  rw [parceTaskNode, parceTaskNode, hdata, hloop]

theorem insertAt_unrecognized {σ : Type} (ops : TomatoOps σ) (dW dR : Int) (added : QDomNode)
    (pos : Nat) :
    ∀ (path : List Nat) (place : Place) (nodes : List QDomNode),
      unrecognizedAt added place path nodes = true →
        (place = Place.top → ∀ t,
            projectLoop ops dW dR (insertAt added pos path nodes) t
              = projectLoop ops dW dR nodes t)
          ∧ (place = Place.rootTask → ∀ t,
            rootTaskLoop ops (insertAt added pos path nodes) t = rootTaskLoop ops nodes t)
          ∧ (place = Place.task →
            (∀ id t, parceTaskLoop ops (insertAt added pos path nodes) id t
              = parceTaskLoop ops nodes id t)
            ∧ (∀ acc, taskTimesLoop (insertAt added pos path nodes) acc
              = taskTimesLoop nodes acc)) := by
  intro path
  induction path with
  | nil =>
    intro place nodes h
    have hsplit : nodes.take pos ++ nodes.drop pos = nodes := List.take_append_drop pos nodes
    simp only [unrecognizedAt, Bool.not_eq_true'] at h
    simp only [insertAt]
    refine ⟨?_, ?_, ?_⟩
    · intro hp t
      subst hp
      have h1 : added.nodeName ≠ nsSettings ∧ added.nodeName ≠ nsRootTask := by
        simpa [Place.recognizes] using h
      conv_rhs => rw [← hsplit]
      rw [projectLoop_append, projectLoop_append, projectLoop, if_neg h1.1, if_neg h1.2]
    · intro hp t
      subst hp
      have h1 : added.nodeName ≠ nsTask := by simpa [Place.recognizes] using h
      conv_rhs => rw [← hsplit]
      rw [rootTaskLoop_append, rootTaskLoop_append, rootTaskLoop, if_neg h1]
    · intro hp
      subst hp
      have h1 : added.nodeName ≠ nsTask ∧ added.nodeName ≠ nsTaskTime := by
        simpa [Place.recognizes] using h
      refine ⟨?_, ?_⟩
      · intro id t
        conv_rhs => rw [← hsplit]
        rw [parceTaskLoop_append, parceTaskLoop_append, parceTaskLoop, if_neg h1.1]
      · intro acc
        conv_rhs => rw [← hsplit]
        rw [taskTimesLoop_append, taskTimesLoop_append, taskTimesLoop, if_neg h1.2]
  | cons i path ih =>
    intro place nodes h
    have hsplit : nodes.take i ++ nodes.drop i = nodes := List.take_append_drop i nodes
    cases hdrop : nodes.drop i with
    | nil => simp [unrecognizedAt, hdrop] at h
    | cons node after =>
      obtain ⟨n, a, c⟩ := node
      simp only [unrecognizedAt, hdrop] at h
      obtain ⟨ihtop, ihroot, ihtask⟩ := ih (place.child n) c h
      rw [hdrop] at hsplit
      simp only [insertAt, hdrop]
      refine ⟨?_, ?_, ?_⟩
      · intro hp t
        subst hp
        conv_rhs => rw [← hsplit]
        rw [projectLoop_append, projectLoop_append, projectLoop, projectLoop]
        simp only [QDomNode.nodeName, QDomNode.attr, QDomNode.attributes, QDomNode.childNodes]
        by_cases hrt : n = nsRootTask
        · have hplace : Place.top.child n = Place.rootTask := by simp [Place.child, hrt]
          rw [ihroot hplace]
        · simp only [hrt, if_false]
      · intro hp t
        subst hp
        conv_rhs => rw [← hsplit]
        rw [rootTaskLoop_append, rootTaskLoop_append, rootTaskLoop, rootTaskLoop]
        simp only [QDomNode.nodeName]
        by_cases hn : n = nsTask
        · have hplace : Place.rootTask.child n = Place.task := by simp [Place.child, hn]
          rw [parceTaskNode_congr ops n a c _ (ihtask hplace).1 (ihtask hplace).2]
        · simp only [hn, if_false]
      · intro hp
        subst hp
        refine ⟨?_, ?_⟩
        · intro id t
          conv_rhs => rw [← hsplit]
          rw [parceTaskLoop_append, parceTaskLoop_append, parceTaskLoop, parceTaskLoop]
          simp only [QDomNode.nodeName]
          by_cases hn : n = nsTask
          · have hplace : Place.task.child n = Place.task := by simp [Place.child, hn]
            rw [parceTaskNode_congr ops n a c _ (ihtask hplace).1 (ihtask hplace).2]
          · simp only [hn, if_false]
        · intro acc
          conv_rhs => rw [← hsplit]
          rw [taskTimesLoop_append, taskTimesLoop_append, taskTimesLoop, taskTimesLoop]
          simp only [QDomNode.nodeName, QDomNode.attr, QDomNode.attributes]

/-- C9: in a document with the right root tag, inserting one more node, with any subtree,
at any depth and position, leaves the load unchanged, provided its name is not one
the loader acts on where it lands (`Settings` or `RootTask` under the root, `Task`
under a `RootTask` block, `Task` or `Time` under an ingested `Task`): the load still
succeeds and makes the same `setWorkingTime`, `setRestingTime` and `addTask` calls
with the same arguments and results, on any tracker. -/
theorem loadProjectFromXml_ignores_unrecognized {σ : Type} (ops : TomatoOps σ)
    (DefaultWorkingTime DefaultRestingTime : Int) (documentElement added : QDomNode)
    (pos : Nat) (path : List Nat) (tomato : σ)
    (hroot : documentElement.nodeName = nsProject)
    (hadded : unrecognizedAt added Place.top path documentElement.childNodes = true) :
    loadProjectFromXml ops.logged DefaultWorkingTime DefaultRestingTime
        (InputFile.document
          (QDomNode.mk documentElement.nodeName documentElement.attributes
            (insertAt added pos path documentElement.childNodes)))
        (tomato, [])
      = loadProjectFromXml ops.logged DefaultWorkingTime DefaultRestingTime
        (InputFile.document documentElement) (tomato, [])
      ∧ (loadProjectFromXml ops.logged DefaultWorkingTime DefaultRestingTime
        (InputFile.document
          (QDomNode.mk documentElement.nodeName documentElement.attributes
            (insertAt added pos path documentElement.childNodes)))
        (tomato, [])).ok = true := by
  have h := (insertAt_unrecognized ops.logged DefaultWorkingTime DefaultRestingTime added pos
    path Place.top documentElement.childNodes hadded).1 rfl (tomato, [])
  obtain ⟨n, a, c⟩ := documentElement
  have hn : n = nsProject := hroot
  subst hn
  have hc : (QDomNode.mk nsProject a c).childNodes = c := rfl
  rw [hc] at h
  simp [loadProjectFromXml, QDomNode.nodeName, QDomNode.childNodes, QDomNode.attributes, h]


theorem loadProjectFromXml_ignores_unrecognized_witness :
    loadProjectFromXml Tomato.ops.logged 1500 300
        (InputFile.document
          (QDomNode.mk "TomatoTaskTracker" []
            [QDomNode.mk "Settings" [("workingtime", "1200")] [],
             QDomNode.mk "RootTask" []
               [QDomNode.mk "Task" [("title", "a")]
                  [QDomNode.mk "Time" [("starttime", "3"), ("endtime", "4")] [],
                   QDomNode.mk "Note" [("starttime", "5"), ("endtime", "6")]
                     [QDomNode.mk "Task" [("title", "x")] [],
                      QDomNode.mk "Time" [("starttime", "7"), ("endtime", "8")] []],
                   QDomNode.mk "Task" [("title", "b")] []]]]))
        (Tomato.fresh 1500 300, [])
      = loadProjectFromXml Tomato.ops.logged 1500 300
        (InputFile.document
          (QDomNode.mk "TomatoTaskTracker" []
            [QDomNode.mk "Settings" [("workingtime", "1200")] [],
             QDomNode.mk "RootTask" []
               [QDomNode.mk "Task" [("title", "a")]
                  [QDomNode.mk "Time" [("starttime", "3"), ("endtime", "4")] [],
                   QDomNode.mk "Task" [("title", "b")] []]]]))
        (Tomato.fresh 1500 300, []) :=
  (loadProjectFromXml_ignores_unrecognized Tomato.ops 1500 300
    (QDomNode.mk "TomatoTaskTracker" []
      [QDomNode.mk "Settings" [("workingtime", "1200")] [],
       QDomNode.mk "RootTask" []
         [QDomNode.mk "Task" [("title", "a")]
            [QDomNode.mk "Time" [("starttime", "3"), ("endtime", "4")] [],
             QDomNode.mk "Task" [("title", "b")] []]]])
    (QDomNode.mk "Note" [("starttime", "5"), ("endtime", "6")]
      [QDomNode.mk "Task" [("title", "x")] [],
       QDomNode.mk "Time" [("starttime", "7"), ("endtime", "8")] []])
    1 [1, 0] (Tomato.fresh 1500 300) rfl (by decide)).1

/-! ## The modelled tracker: adding under a parent -/

theorem idsList_append (xs ys : List Task) :
    Task.idsList (xs ++ ys) = Task.idsList xs ++ Task.idsList ys := by
  induction xs with
  | nil => simp [Task.idsList]
  | cons x rest ih => rw [List.cons_append, Task.idsList, Task.idsList, ih, List.append_assoc]

theorem appendUnderList_append (parentId : Int) (added xs ys : List Task) :
    Task.appendUnderList parentId added (xs ++ ys)
      = Task.appendUnderList parentId added xs ++ Task.appendUnderList parentId added ys := by
  induction xs with
  | nil => simp [Task.appendUnderList]
  | cons x rest ih =>
    rw [List.cons_append, Task.appendUnderList, Task.appendUnderList, ih, List.cons_append]

mutual
theorem appendUnder_nil (parentId : Int) : ∀ task : Task,
    Task.appendUnder parentId [] task = task
  | Task.mk id data children => by
    rw [Task.appendUnder, appendUnderList_nil parentId children]
    simp
theorem appendUnderList_nil (parentId : Int) : ∀ tasks : List Task,
    Task.appendUnderList parentId [] tasks = tasks
  | [] => by rw [Task.appendUnderList]
  | t :: rest => by
    rw [Task.appendUnderList, appendUnder_nil parentId t, appendUnderList_nil parentId rest]
end

mutual
theorem appendUnder_absent (parentId : Int) (added : List Task) : ∀ task : Task,
    parentId ∉ Task.ids task → Task.appendUnder parentId added task = task
  | Task.mk id data children => by
    intro h
    rw [Task.ids] at h
    have hid : id ≠ parentId := fun e => h (by simp [e])
    have hch : parentId ∉ Task.idsList children := fun e => h (by simp [e])
    rw [Task.appendUnder, appendUnderList_absent parentId added children hch, if_neg hid]
theorem appendUnderList_absent (parentId : Int) (added : List Task) : ∀ tasks : List Task,
    parentId ∉ Task.idsList tasks → Task.appendUnderList parentId added tasks = tasks
  | [] => by intro _; rw [Task.appendUnderList]
  | t :: rest => by
    intro h
    rw [Task.idsList] at h
    have h1 : parentId ∉ Task.ids t := fun e => h (by simp [e])
    have h2 : parentId ∉ Task.idsList rest := fun e => h (by simp [e])
    rw [Task.appendUnderList, appendUnder_absent parentId added t h1,
      appendUnderList_absent parentId added rest h2]
end

mutual
theorem appendUnder_fresh (c parentId : Int) (kids added : List Task) : ∀ task : Task,
    c ∉ Task.ids task →
      Task.appendUnder c kids (Task.appendUnder parentId added task)
        = Task.appendUnder parentId (Task.appendUnderList c kids added) task
  | Task.mk id data children => by
    intro h
    rw [Task.ids] at h
    have hid : id ≠ c := fun e => h (by simp [e])
    have hch : c ∉ Task.idsList children := fun e => h (by simp [e])
    have ih := appendUnderList_fresh c parentId kids added children hch
    rw [Task.appendUnder, Task.appendUnder, Task.appendUnder, if_neg hid]
    by_cases hp : id = parentId
    · rw [if_pos hp, if_pos hp, appendUnderList_append, ih]
    · rw [if_neg hp, if_neg hp, ih]
theorem appendUnderList_fresh (c parentId : Int) (kids added : List Task) :
    ∀ tasks : List Task, c ∉ Task.idsList tasks →
      Task.appendUnderList c kids (Task.appendUnderList parentId added tasks)
        = Task.appendUnderList parentId (Task.appendUnderList c kids added) tasks
  | [] => by intro _; simp [Task.appendUnderList]
  | t :: rest => by
    intro h
    rw [Task.idsList] at h
    have h1 : c ∉ Task.ids t := fun e => h (by simp [e])
    have h2 : c ∉ Task.idsList rest := fun e => h (by simp [e])
    rw [Task.appendUnderList, Task.appendUnderList, Task.appendUnderList,
      appendUnder_fresh c parentId kids added t h1,
      appendUnderList_fresh c parentId kids added rest h2]
end

mutual
theorem appendUnder_twice (parentId : Int) (xs ys : List Task)
    (hxs : parentId ∉ Task.idsList xs) : ∀ task : Task,
    Task.appendUnder parentId ys (Task.appendUnder parentId xs task)
      = Task.appendUnder parentId (xs ++ ys) task
  | Task.mk id data children => by
    have ih := appendUnderList_twice parentId xs ys hxs children
    rw [Task.appendUnder, Task.appendUnder, Task.appendUnder]
    by_cases hp : id = parentId
    · rw [if_pos hp, if_pos hp, if_pos hp, appendUnderList_append, ih,
        appendUnderList_absent parentId ys xs hxs, List.append_assoc]
    · rw [if_neg hp, if_neg hp, if_neg hp, ih]
theorem appendUnderList_twice (parentId : Int) (xs ys : List Task)
    (hxs : parentId ∉ Task.idsList xs) : ∀ tasks : List Task,
    Task.appendUnderList parentId ys (Task.appendUnderList parentId xs tasks)
      = Task.appendUnderList parentId (xs ++ ys) tasks
  | [] => by simp [Task.appendUnderList]
  | t :: rest => by
    rw [Task.appendUnderList, Task.appendUnderList, Task.appendUnderList,
      appendUnder_twice parentId xs ys hxs t, appendUnderList_twice parentId xs ys hxs rest]
end

mutual
theorem ids_appendUnder (parentId : Int) (added : List Task) : ∀ (task : Task) (i : Int),
    i ∈ Task.ids (Task.appendUnder parentId added task) →
      i ∈ Task.ids task ∨ i ∈ Task.idsList added
  | Task.mk id data children, i => by
    intro h
    rw [Task.appendUnder, Task.ids] at h
    rw [Task.ids]
    rcases List.mem_cons.1 h with h | h
    · exact Or.inl (by simp [h])
    · by_cases hp : id = parentId
      · rw [if_pos hp, idsList_append] at h
        rcases List.mem_append.1 h with h | h
        · rcases idsList_appendUnder parentId added children i h with h | h
          · exact Or.inl (by simp [h])
          · exact Or.inr h
        · exact Or.inr h
      · rw [if_neg hp] at h
        rcases idsList_appendUnder parentId added children i h with h | h
        · exact Or.inl (by simp [h])
        · exact Or.inr h
theorem idsList_appendUnder (parentId : Int) (added : List Task) :
    ∀ (tasks : List Task) (i : Int),
      i ∈ Task.idsList (Task.appendUnderList parentId added tasks) →
        i ∈ Task.idsList tasks ∨ i ∈ Task.idsList added
  | [], i => by
    intro h
    rw [Task.appendUnderList] at h
    exact Or.inl h
  | t :: rest, i => by
    intro h
    rw [Task.appendUnderList, Task.idsList] at h
    rw [Task.idsList]
    rcases List.mem_append.1 h with h | h
    · rcases ids_appendUnder parentId added t i h with h | h
      · exact Or.inl (by simp [h])
      · exact Or.inr h
    · rcases idsList_appendUnder parentId added rest i h with h | h
      · exact Or.inl (by simp [h])
      · exact Or.inr h
end

/-! ## The modelled tracker: what a load builds -/

mutual
theorem builtTask_ids : ∀ (node : QDomNode) (next : Int),
    next < (builtTask node next).2
      ∧ ∀ i ∈ Task.ids (builtTask node next).1, next ≤ i ∧ i < (builtTask node next).2
  | QDomNode.mk n a c, next => by
    obtain ⟨h1, h2⟩ := builtTasks_ids c (next + 1)
    rw [builtTask]
    simp only [Task.ids]
    refine ⟨by omega, ?_⟩
    intro i hi
    rcases List.mem_cons.1 hi with hi | hi
    · omega
    · have := h2 i hi
      omega
theorem builtTasks_ids : ∀ (nodes : List QDomNode) (next : Int),
    next ≤ (builtTasks nodes next).2
      ∧ ∀ i ∈ Task.idsList (builtTasks nodes next).1,
          next ≤ i ∧ i < (builtTasks nodes next).2
  | [], next => by simp [builtTasks, Task.idsList]
  | node :: rest, next => by
    rw [builtTasks]
    split
    · obtain ⟨a1, a2⟩ := builtTask_ids node next
      obtain ⟨b1, b2⟩ := builtTasks_ids rest (builtTask node next).2
      simp only [Task.idsList]
      refine ⟨by omega, ?_⟩
      intro i hi
      rcases List.mem_append.1 hi with hi | hi
      · have := a2 i hi
        omega
      · have := b2 i hi
        omega
    · exact builtTasks_ids rest next
end

theorem appendUnderList_new (c : Int) (data : TaskData) (kids : List Task) :
    Task.appendUnderList c kids [Task.mk c data []] = [Task.mk c data kids] := by
  simp [Task.appendUnderList, Task.appendUnder]

mutual
theorem parceTaskNode_built : ∀ (node : QDomNode) (p : Int) (T : Tomato),
    (∀ i ∈ Task.ids T.rootTask, i < T.nextId) → p < T.nextId →
      parceTaskNode Tomato.ops node p T
        = { T with
            rootTask := T.rootTask.appendUnder p [(builtTask node T.nextId).1]
            nextId := (builtTask node T.nextId).2 }
  | QDomNode.mk n a c, p, T => by
    intro hinv hp
    have hfresh : T.nextId ∉ Task.ids T.rootTask := fun h => lt_irrefl _ (hinv _ h)
    have hinv1 : ∀ i ∈ Task.ids
        (Tomato.ops.addTask p (taskDataFromElem (QDomNode.mk n a c)) T).2.rootTask,
        i < (Tomato.ops.addTask p (taskDataFromElem (QDomNode.mk n a c)) T).2.nextId := by
      intro i hi
      have hi' : i ∈ Task.ids (T.rootTask.appendUnder p
          [Task.mk T.nextId (taskDataFromElem (QDomNode.mk n a c)) []]) := hi
      have hn : (Tomato.ops.addTask p (taskDataFromElem (QDomNode.mk n a c)) T).2.nextId
          = T.nextId + 1 := rfl
      rw [hn]
      rcases ids_appendUnder _ _ _ _ hi' with h | h
      · have := hinv i h
        omega
      · simp [Task.idsList, Task.ids] at h
        omega
    have hloop := parceTaskLoop_built c T.nextId
      (Tomato.ops.addTask p (taskDataFromElem (QDomNode.mk n a c)) T).2 hinv1
      (by show T.nextId < T.nextId + 1; omega)
    rw [parceTaskNode]
    have h1 : (Tomato.ops.addTask p (taskDataFromElem (QDomNode.mk n a c)) T).1 = T.nextId := rfl
    rw [h1, hloop]
    have h2 : (Tomato.ops.addTask p (taskDataFromElem (QDomNode.mk n a c)) T).2.rootTask
        = T.rootTask.appendUnder p
            [Task.mk T.nextId (taskDataFromElem (QDomNode.mk n a c)) []] := rfl
    have h3 : (Tomato.ops.addTask p (taskDataFromElem (QDomNode.mk n a c)) T).2.nextId
        = T.nextId + 1 := rfl
    rw [h2, h3, appendUnder_fresh _ _ _ _ _ hfresh, appendUnderList_new, builtTask]
    rfl
theorem parceTaskLoop_built : ∀ (nodes : List QDomNode) (p : Int) (T : Tomato),
    (∀ i ∈ Task.ids T.rootTask, i < T.nextId) → p < T.nextId →
      parceTaskLoop Tomato.ops nodes p T
        = { T with
            rootTask := T.rootTask.appendUnder p (builtTasks nodes T.nextId).1
            nextId := (builtTasks nodes T.nextId).2 }
  | [], p, T => by
    intro _ _
    rw [parceTaskLoop, builtTasks]
    simp [appendUnder_nil]
  | node :: rest, p, T => by
    intro hinv hp
    rw [parceTaskLoop, builtTasks]
    by_cases hname : node.nodeName = nsTask
    · rw [if_pos hname, if_pos hname, parceTaskNode_built node p T hinv hp]
      obtain ⟨b1, b2⟩ := builtTask_ids node T.nextId
      have hinv1 : ∀ i ∈ Task.ids (T.rootTask.appendUnder p [(builtTask node T.nextId).1]),
          i < (builtTask node T.nextId).2 := by
        intro i hi
        rcases ids_appendUnder _ _ _ _ hi with h | h
        · have := hinv i h
          omega
        · simp only [Task.idsList, List.append_nil] at h
          exact (b2 i h).2
      have hp1 : p < (builtTask node T.nextId).2 := by omega
      have hloop := parceTaskLoop_built rest p
        { T with
          rootTask := T.rootTask.appendUnder p [(builtTask node T.nextId).1]
          nextId := (builtTask node T.nextId).2 } hinv1 hp1
      rw [hloop]
      have hnot : p ∉ Task.idsList [(builtTask node T.nextId).1] := by
        intro h
        simp only [Task.idsList, List.append_nil] at h
        have := (b2 p h).1
        omega
      simp only [appendUnder_twice p _ _ hnot, List.singleton_append]
    · rw [if_neg hname, if_neg hname]
      exact parceTaskLoop_built rest p T hinv hp
end

theorem rootTaskLoop_built (nodes : List QDomNode) (T : Tomato)
    (hinv : ∀ i ∈ Task.ids T.rootTask, i < T.nextId) :
    rootTaskLoop Tomato.ops nodes T
      = { T with
          rootTask := T.rootTask.appendUnder T.rootTask.id (builtTasks nodes T.nextId).1
          nextId := (builtTasks nodes T.nextId).2 } := by
  have hroot : T.rootTask.id < T.nextId := by
    apply hinv
    cases T.rootTask with
    | mk id data children => simp [Task.ids, Task.id]
  induction nodes generalizing T with
  | nil =>
    rw [rootTaskLoop, builtTasks]
    simp [appendUnder_nil]
  | cons node rest ih =>
    rw [rootTaskLoop, builtTasks]
    by_cases hname : node.nodeName = nsTask
    · have hrid : Tomato.ops.rootTaskId T = T.rootTask.id := rfl
      rw [if_pos hname, if_pos hname, hrid, parceTaskNode_built node _ T hinv hroot]
      obtain ⟨b1, b2⟩ := builtTask_ids node T.nextId
      have hinv1 : ∀ i ∈ Task.ids
          (T.rootTask.appendUnder T.rootTask.id [(builtTask node T.nextId).1]),
          i < (builtTask node T.nextId).2 := by
        intro i hi
        rcases ids_appendUnder _ _ _ _ hi with h | h
        · have := hinv i h
          omega
        · simp only [Task.idsList, List.append_nil] at h
          exact (b2 i h).2
      have hl := ih
        { T with
          rootTask := T.rootTask.appendUnder T.rootTask.id [(builtTask node T.nextId).1]
          nextId := (builtTask node T.nextId).2 } hinv1
        (by simp only [appendUnder_id]; omega)
      rw [hl]
      have hnot : T.rootTask.id ∉ Task.idsList [(builtTask node T.nextId).1] := by
        intro h
        simp only [Task.idsList, List.append_nil] at h
        have := (b2 _ h).1
        omega
      simp only [appendUnder_id, appendUnder_twice _ _ _ hnot, List.singleton_append]
    · rw [if_neg hname, if_neg hname]
      exact ih T hinv hroot

/-! ## Reading back what the serializer wrote -/

theorem validTime_taskTimeElem (taskTime : TaskTime)
    (h : (decide (0 < taskTime.start) && fitsInt64 taskTime.start
      && decide (0 < taskTime.end_) && fitsInt64 taskTime.end_) = true) :
    validTime (taskTimeElem taskTime) = some taskTime := by
  simp only [Bool.and_eq_true, decide_eq_true_eq, fitsInt64] at h
  obtain ⟨⟨⟨h1, h2⟩, h3⟩, h4⟩ := h
  have ha : (taskTimeElem taskTime).attr attrStartTime "0" = QString.number taskTime.start := by
    rw [taskTimeElem_eq]
    simp [QDomNode.attr, QDomNode.attributes, List.lookup]
  have hb : (taskTimeElem taskTime).attr attrEndTime "0" = QString.number taskTime.end_ := by
    rw [taskTimeElem_eq]
    have : (attrEndTime == attrStartTime) = false := by decide
    simp [QDomNode.attr, QDomNode.attributes, List.lookup, this]
  simp only [validTime, ha, hb, QString.toLongLong_number _ h2, QString.toLongLong_number _ h4]
  rw [if_pos ⟨h1, h3⟩]

theorem filterMap_validTime_taskTimeElem (times : List TaskTime)
    (h : times.all (fun t => decide (0 < t.start) && fitsInt64 t.start
      && decide (0 < t.end_) && fitsInt64 t.end_) = true) :
    (times.map taskTimeElem).filterMap validTime = times := by
  induction times with
  | nil => rfl
  | cons t rest ih =>
    rw [List.all_cons, Bool.and_eq_true] at h
    rw [List.map_cons, List.filterMap_cons, validTime_taskTimeElem t h.1, ih h.2]

theorem taskDataFromElem_createTaskElem (isEmpty : TaskTime → Bool) (tomato : Tomato) (id : Int)
    (data : TaskData) (children : List Task)
    (h : storedAsRecorded isEmpty tomato id data = true) :
    taskDataFromElem (createTaskElem isEmpty tomato (Task.mk id data children)) = data := by
  simp only [storedAsRecorded, TaskData.positiveTimes, Bool.and_eq_true,
    Bool.not_eq_true'] at h
  obtain ⟨⟨hlimit, htimes⟩, hsyn⟩ := h
  have hlimit' : -2 ^ 63 ≤ data.timeLimit ∧ data.timeLimit < 2 ^ 63 := by
    simpa [fitsInt64] using hlimit
  have htf : taskTimesFromElem (createTaskElem isEmpty tomato (Task.mk id data children))
      = data.times := by
    rw [taskTimesFromElem, taskTimesLoop_eq, createTaskElem_time_filter, hsyn]
    simp [filterMap_validTime_taskTimeElem data.times htimes]
  have hattrs : (createTaskElem isEmpty tomato (Task.mk id data children)).attributes
      = [(attrTitle, data.title), (attrDesc, data.desc),
         (attrTimeLimit, QString.number data.timeLimit),
         (attrIsDone, QString.number (if data.isCompleted then 1 else 0))] := by
    rw [createTaskElem_eq]
    rfl
  have hdone : decide (QString.toInt (QString.number (if data.isCompleted then 1 else 0)) ≠ 0)
      = data.isCompleted := by
    cases data.isCompleted <;> decide
  have e1 : (attrDesc == attrTitle) = false := by decide
  have e2 : (attrTimeLimit == attrTitle) = false := by decide
  have e3 : (attrTimeLimit == attrDesc) = false := by decide
  have e4 : (attrIsDone == attrTitle) = false := by decide
  have e5 : (attrIsDone == attrDesc) = false := by decide
  have e6 : (attrIsDone == attrTimeLimit) = false := by decide
  simp only [taskDataFromElem, htf, QDomNode.attr, hattrs, List.lookup, e1, e2, e3, e4, e5, e6,
    beq_self_eq_true, QString.toLongLong_number _ hlimit', hdone]

theorem builtTasks_skip (xs ys : List QDomNode) (next : Int)
    (h : ∀ c ∈ xs, c.nodeName ≠ nsTask) :
    builtTasks (xs ++ ys) next = builtTasks ys next := by
  induction xs with
  | nil => rfl
  | cons x rest ih =>
    rw [List.cons_append, builtTasks, if_neg (h x (by simp))]
    exact ih (fun c hc => h c (by simp [hc]))

mutual
theorem builtTask_createTaskElem (isEmpty : TaskTime → Bool) (tomato : Tomato) :
    ∀ (task : Task) (next : Int), Task.all (storedAsRecorded isEmpty tomato) task = true →
      Task.tree (builtTask (createTaskElem isEmpty tomato task) next).1 = Task.tree task
  | Task.mk id data children, next => by
    intro h
    rw [Task.all, Bool.and_eq_true] at h
    have hdata := taskDataFromElem_createTaskElem isEmpty tomato id data children h.1
    have hsyn : synthesizes isEmpty tomato id = false := by
      have := h.1
      simp only [storedAsRecorded, Bool.and_eq_true, Bool.not_eq_true'] at this
      exact this.2
    have hne : nsTaskTime ≠ nsTask := by decide
    have hkids : builtTasks
        (data.times.map taskTimeElem
          ++ (if synthesizes isEmpty tomato id then [taskTimeElem tomato.calcActiveTaskTime]
              else [])
          ++ children.map (createTaskElem isEmpty tomato)) (next + 1)
        = builtTasks (children.map (createTaskElem isEmpty tomato)) (next + 1) := by
      apply builtTasks_skip
      intro c hc
      rw [hsyn] at hc
      simp only [Bool.false_eq_true, if_false, List.append_nil] at hc
      obtain ⟨t, _, rfl⟩ := List.mem_map.1 hc
      simp [taskTimeElem_eq, QDomNode.nodeName, hne]
    have e := createTaskElem_eq isEmpty tomato id data children
    rw [e] at hdata
    rw [e, builtTask, hdata, hkids, Task.tree, Task.tree,
      builtTasks_createTaskElem isEmpty tomato children (next + 1) h.2]
theorem builtTasks_createTaskElem (isEmpty : TaskTime → Bool) (tomato : Tomato) :
    ∀ (tasks : List Task) (next : Int),
      Task.allList (storedAsRecorded isEmpty tomato) tasks = true →
        Task.forest (builtTasks (tasks.map (createTaskElem isEmpty tomato)) next).1
          = Task.forest tasks
  | [], next => by
    intro _
    rfl
  | t :: rest, next => by
    intro h
    rw [Task.allList, Bool.and_eq_true] at h
    rw [List.map_cons, builtTasks, if_pos (createTaskElem_nodeName isEmpty tomato t)]
    simp only [Task.forest]
    rw [builtTask_createTaskElem isEmpty tomato t next h.1,
      builtTasks_createTaskElem isEmpty tomato rest _ h.2]
end

/-! ## Saving, then loading -/

mutual
theorem all_of_imp (p q : Int → TaskData → Bool)
    (hpq : ∀ id data, p id data = true → q id data = true) :
    ∀ task : Task, Task.all p task = true → Task.all q task = true
  | Task.mk id data children => by
    intro h
    rw [Task.all, Bool.and_eq_true] at h
    rw [Task.all, Bool.and_eq_true]
    exact ⟨hpq id data h.1, allList_of_imp p q hpq children h.2⟩
theorem allList_of_imp (p q : Int → TaskData → Bool)
    (hpq : ∀ id data, p id data = true → q id data = true) :
    ∀ tasks : List Task, Task.allList p tasks = true → Task.allList q tasks = true
  | [] => by
    intro _
    rfl
  | t :: rest => by
    intro h
    rw [Task.allList, Bool.and_eq_true] at h
    rw [Task.allList, Bool.and_eq_true]
    exact ⟨all_of_imp p q hpq t h.1, allList_of_imp p q hpq rest h.2⟩
end

theorem projectElem_eq (isEmpty : TaskTime → Bool) (tomato : Tomato) :
    projectElem isEmpty tomato
      = QDomNode.mk nsProject []
          [QDomNode.mk nsSettings
             [(attrWorkingTime, QString.number tomato.workingTime),
              (attrRestingTime, QString.number tomato.restingTime)] [],
           QDomNode.mk nsRootTask []
             (tomato.rootTask.children.map (createTaskElem isEmpty tomato))] := by
  have hne : attrWorkingTime ≠ attrRestingTime := by decide
  simp [projectElem, createSettingsElem, createRootTaskElem, createElement,
    QDomNode.appendChild, QDomNode.setAttribute, QDomNode.setAttr, appendTaskElems_eq, hne]

theorem load_saved_document (isEmpty : TaskTime → Bool) (tomato fresh : Tomato) (dW dR : Int)
    (hall : Task.allList (storedAsRecorded isEmpty tomato) tomato.rootTask.children = true)
    (hw : fitsInt32 tomato.workingTime = true) (hr : fitsInt32 tomato.restingTime = true)
    (hfresh : fresh.rootTask.children = []) (hid : fresh.rootTask.id < fresh.nextId) :
    (loadProjectFromXml Tomato.ops dW dR
        (InputFile.document (projectElem isEmpty tomato)) fresh).ok = true
      ∧ Task.forest (loadProjectFromXml Tomato.ops dW dR
          (InputFile.document (projectElem isEmpty tomato)) fresh).tomato.rootTask.children
        = Task.forest tomato.rootTask.children
      ∧ (loadProjectFromXml Tomato.ops dW dR
          (InputFile.document (projectElem isEmpty tomato)) fresh).tomato.workingTime
        = tomato.workingTime
      ∧ (loadProjectFromXml Tomato.ops dW dR
          (InputFile.document (projectElem isEmpty tomato)) fresh).tomato.restingTime
        = tomato.restingTime := by
  have hw' : -2 ^ 31 ≤ tomato.workingTime ∧ tomato.workingTime < 2 ^ 31 := by
    simpa [fitsInt32] using hw
  have hr' : -2 ^ 31 ≤ tomato.restingTime ∧ tomato.restingTime < 2 ^ 31 := by
    simpa [fitsInt32] using hr
  have hne1 : nsRootTask ≠ nsSettings := by decide
  have hbeq : (attrRestingTime == attrWorkingTime) = false := by decide
  obtain ⟨fw, fr, fs, froot, fa, fc, fn⟩ := fresh
  obtain ⟨rid, rdata, rchildren⟩ := froot
  have hrc : rchildren = [] := hfresh
  subst hrc
  have hid' : rid < fn := hid
  have hinv : ∀ i ∈ Task.ids (Task.mk rid rdata []), i < fn := by
    intro i hi
    simp [Task.ids, Task.idsList] at hi
    omega
  have hload : (loadProjectFromXml Tomato.ops dW dR
      (InputFile.document (projectElem isEmpty tomato))
      (Tomato.mk fw fr fs (Task.mk rid rdata []) fa fc fn))
      = ⟨true, none,
          rootTaskLoop Tomato.ops (tomato.rootTask.children.map (createTaskElem isEmpty tomato))
            (Tomato.mk tomato.workingTime tomato.restingTime fs (Task.mk rid rdata []) fa fc
              fn)⟩ := by
    rw [projectElem_eq]
    simp only [loadProjectFromXml, QDomNode.nodeName, QDomNode.childNodes, ne_eq,
      not_true_eq_false, if_false, projectLoop, if_true, hne1, QDomNode.attr,
      QDomNode.attributes, List.lookup, beq_self_eq_true, hbeq,
      QString.toInt_number _ hw', QString.toInt_number _ hr']
    rfl
  rw [hload, rootTaskLoop_built _ _ hinv]
  refine ⟨rfl, ?_, rfl, rfl⟩
  have happ : (Task.appendUnder rid
      (builtTasks (tomato.rootTask.children.map (createTaskElem isEmpty tomato)) fn).1
      (Task.mk rid rdata [])).children
        = (builtTasks (tomato.rootTask.children.map (createTaskElem isEmpty tomato)) fn).1 := by
    simp [Task.appendUnder, Task.appendUnderList, Task.children]
  show Task.forest (Task.appendUnder rid _ (Task.mk rid rdata [])).children = _
  rw [happ]
  exact builtTasks_createTaskElem isEmpty tomato _ fn hall

/-- C1 (as stated, refuted): a tracker with no active task whose only task holds the
interval (0, 5) is saved and loaded into a fresh tracker: the task comes back with
no interval. -/
theorem roundtrip_drops_nonpositive_interval :
    (Tomato.mk 1500 300 State.Idle
        (Task.mk 0 (TaskData.mk "" "" 0 false [])
          [Task.mk 1 (TaskData.mk "a" "" 0 false [TaskTime.mk 0 5]) []])
        none (TaskTime.mk 0 0) 2).activeTaskId = none
      ∧ (Tomato.mk 1500 300 State.Idle
        (Task.mk 0 (TaskData.mk "" "" 0 false [])
          [Task.mk 1 (TaskData.mk "a" "" 0 false [TaskTime.mk 0 5]) []])
        none (TaskTime.mk 0 0) 2).rootTask.children.map (fun t => t.data.times)
        = [[TaskTime.mk 0 5]]
      ∧ (loadProjectFromXml Tomato.ops 1500 300
        (InputFile.document
          (projectElem (fun _ => false)
            (Tomato.mk 1500 300 State.Idle
              (Task.mk 0 (TaskData.mk "" "" 0 false [])
                [Task.mk 1 (TaskData.mk "a" "" 0 false [TaskTime.mk 0 5]) []])
              none (TaskTime.mk 0 0) 2)))
        (Tomato.fresh 1500 300)).tomato.rootTask.children.map (fun t => t.data.times)
        = [[]] := by
  decide

/-- C1 (amended): for a tracker with no active task in which every recorded interval of
every task has a positive start and end (time limits and timestamps being `qint64`,
durations `int`), loading the document that saving builds into a tracker with no
task succeeds and yields the same task tree (hierarchy, order, title, description,
time limit, completion flag and intervals of every task) and the same working and
resting durations. -/
theorem save_then_load_roundtrip (isEmpty : TaskTime → Bool) (tomato fresh : Tomato)
    (DefaultWorkingTime DefaultRestingTime : Int)
    (hactive : tomato.activeTaskId = none)
    (htimes : Task.allList (fun _ data => data.positiveTimes) tomato.rootTask.children = true)
    (hw : fitsInt32 tomato.workingTime = true) (hr : fitsInt32 tomato.restingTime = true)
    (hfresh : fresh.rootTask.children = []) (hid : fresh.rootTask.id < fresh.nextId) :
    (loadProjectFromXml Tomato.ops DefaultWorkingTime DefaultRestingTime
        (InputFile.document (projectElem isEmpty tomato)) fresh).ok = true
      ∧ Task.forest (loadProjectFromXml Tomato.ops DefaultWorkingTime DefaultRestingTime
          (InputFile.document (projectElem isEmpty tomato)) fresh).tomato.rootTask.children
        = Task.forest tomato.rootTask.children
      ∧ (loadProjectFromXml Tomato.ops DefaultWorkingTime DefaultRestingTime
          (InputFile.document (projectElem isEmpty tomato)) fresh).tomato.workingTime
        = tomato.workingTime
      ∧ (loadProjectFromXml Tomato.ops DefaultWorkingTime DefaultRestingTime
          (InputFile.document (projectElem isEmpty tomato)) fresh).tomato.restingTime
        = tomato.restingTime := by
  apply load_saved_document isEmpty tomato fresh DefaultWorkingTime DefaultRestingTime _ hw hr
    hfresh hid
  apply allList_of_imp _ _ _ _ htimes
  intro id data hdata
  simp [storedAsRecorded, synthesizes, Tomato.isActiveTask, hactive, hdata]

theorem save_then_load_roundtrip_witness :
    Task.forest (loadProjectFromXml Tomato.ops 1500 300
        (InputFile.document
          (projectElem (fun t => t.start == t.end_)
            (Tomato.mk 1200 240 State.Resting
              (Task.mk 0 (TaskData.mk "" "" 0 false [])
                [Task.mk 4 (TaskData.mk "write" "draft" 3600 true [TaskTime.mk 10 20])
                   [Task.mk 9 (TaskData.mk "review" "" 0 false []) []],
                 Task.mk 6 (TaskData.mk "send" "" (-1) false
                   [TaskTime.mk 30 40, TaskTime.mk 50 45]) []])
              none (TaskTime.mk 0 0) 10)))
        (Tomato.fresh 1500 300)).tomato.rootTask.children
      = Task.forest
          [Task.mk 4 (TaskData.mk "write" "draft" 3600 true [TaskTime.mk 10 20])
             [Task.mk 9 (TaskData.mk "review" "" 0 false []) []],
           Task.mk 6 (TaskData.mk "send" "" (-1) false
             [TaskTime.mk 30 40, TaskTime.mk 50 45]) []] :=
  (save_then_load_roundtrip (fun t => t.start == t.end_)
    (Tomato.mk 1200 240 State.Resting
      (Task.mk 0 (TaskData.mk "" "" 0 false [])
        [Task.mk 4 (TaskData.mk "write" "draft" 3600 true [TaskTime.mk 10 20])
           [Task.mk 9 (TaskData.mk "review" "" 0 false []) []],
         Task.mk 6 (TaskData.mk "send" "" (-1) false
           [TaskTime.mk 30 40, TaskTime.mk 50 45]) []])
      none (TaskTime.mk 0 0) 10)
    (Tomato.fresh 1500 300) 1500 300 rfl (by decide) (by decide) (by decide) rfl
    (by decide)).2.1

/-! ## System tray icon: text and icon per state -/

theorem arg_templates (a : String) :
    QString.arg "IDLE: %1" a = "IDLE: " ++ a
      ∧ QString.arg "WORKING: %1" a = "WORKING: " ++ a
      ∧ QString.arg "OVERWORKING: %1" a = "OVERWORKING: " ++ a
      ∧ QString.arg "RESTING: %1" a = "RESTING: " ++ a
      ∧ QString.arg "OVERRESTING: %1" a = "OVERRESTING: " ++ a := by
  cases a with
  | mk cs =>
    refine ⟨?_, ?_, ?_, ?_, ?_⟩ <;>
    · show String.mk _ = String.mk _
      simp [QString.argChars, String.data]

/-- C11: for an open project, `updateTrayText` sets the status text (and the tool tip) to
the template of the timer state applied to `secsToTimeStr d`: `IDLE: ` with the
working time, `WORKING: ` with working time minus elapsed, `OVERWORKING: ` with
elapsed minus working time, `RESTING: ` with resting time minus elapsed,
`OVERRESTING: ` with elapsed minus resting time, where elapsed is
`calcTomatoTime()`; working with 1500 and 600 elapsed formats 900, over-working
with 1500 elapsed and 900 formats 600. -/
theorem updateTrayText_per_state (secsToTimeStr : Int → String)
    (calcTomatoTime : Tomato → Int) (project : Project) (tray : SystemTrayIcon)
    (hopen : project.isOpen = true) :
    (updateTrayText secsToTimeStr calcTomatoTime project tray).statusText
        = (match project.tomato.state with
           | State.Idle => "IDLE: " ++ secsToTimeStr project.tomato.workingTime
           | State.Working =>
             "WORKING: "
               ++ secsToTimeStr (project.tomato.workingTime - calcTomatoTime project.tomato)
           | State.OverWorking =>
             "OVERWORKING: "
               ++ secsToTimeStr (calcTomatoTime project.tomato - project.tomato.workingTime)
           | State.Resting =>
             "RESTING: "
               ++ secsToTimeStr (project.tomato.restingTime - calcTomatoTime project.tomato)
           | State.OverResting =>
             "OVERRESTING: "
               ++ secsToTimeStr (calcTomatoTime project.tomato - project.tomato.restingTime))
      ∧ (updateTrayText secsToTimeStr calcTomatoTime project tray).toolTip
        = (updateTrayText secsToTimeStr calcTomatoTime project tray).statusText
      ∧ (updateTrayText secsToTimeStr calcTomatoTime project tray).icon = tray.icon
      ∧ (project.tomato.state = State.Working → project.tomato.workingTime = 1500 →
          calcTomatoTime project.tomato = 600 →
          (updateTrayText secsToTimeStr calcTomatoTime project tray).statusText
            = "WORKING: " ++ secsToTimeStr 900)
      ∧ (project.tomato.state = State.OverWorking → project.tomato.workingTime = 900 →
          calcTomatoTime project.tomato = 1500 →
          (updateTrayText secsToTimeStr calcTomatoTime project tray).statusText
            = "OVERWORKING: " ++ secsToTimeStr 600) := by
  have ht := arg_templates
  refine ⟨?_, rfl, rfl, ?_, ?_⟩
  · simp only [updateTrayText, hopen, Bool.not_true, Bool.false_eq_true, if_false]
    cases project.tomato.state
    · exact (ht _).1
    · exact (ht _).2.1
    · exact (ht _).2.2.1
    · exact (ht _).2.2.2.1
    · exact (ht _).2.2.2.2
  · intro hs hw he
    simp only [updateTrayText, hopen, Bool.not_true, Bool.false_eq_true, if_false, hs, hw, he]
    exact (ht _).2.1
  · intro hs hw he
    simp only [updateTrayText, hopen, Bool.not_true, Bool.false_eq_true, if_false, hs, hw, he]
    exact (ht _).2.2.1

theorem updateTrayText_per_state_witness :
    (updateTrayText (fun d => QString.number d) (fun _ => 600)
        (Project.mk true
          { Tomato.fresh 1500 300 with state := State.Working })
        (SystemTrayIcon.mk Icon.IconApp "" "")).statusText = "WORKING: 900" :=
  ((updateTrayText_per_state (fun d => QString.number d) (fun _ => 600)
      (Project.mk true { Tomato.fresh 1500 300 with state := State.Working })
      (SystemTrayIcon.mk Icon.IconApp "" "") rfl).2.2.2.1 rfl rfl rfl).trans (by decide)

/-- C12: when the project is not open, `update()` sets the status text (and the tool tip)
to exactly `IDLE`, with no duration, and selects the idle icon, whatever the timer
state and the working, resting and elapsed times. -/
theorem update_not_open (secsToTimeStr : Int → String) (calcTomatoTime : Tomato → Int)
    (project : Project) (tray : SystemTrayIcon) (hclosed : project.isOpen = false) :
    (tray.update secsToTimeStr calcTomatoTime project).statusText = "IDLE"
      ∧ (tray.update secsToTimeStr calcTomatoTime project).toolTip = "IDLE"
      ∧ (tray.update secsToTimeStr calcTomatoTime project).icon = Icon.IconStatusIdle := by
  simp [SystemTrayIcon.update, updateTrayText, updateTrayIcon, hclosed]

theorem update_not_open_witness :
    (SystemTrayIcon.update (fun d => QString.number d) (fun _ => 2000)
        (Project.mk false { Tomato.fresh 1500 300 with state := State.OverWorking })
        (SystemTrayIcon.mk Icon.IconApp "" "")).statusText = "IDLE"
      ∧ (SystemTrayIcon.update (fun d => QString.number d) (fun _ => 2000)
        (Project.mk false { Tomato.fresh 1500 300 with state := State.OverWorking })
        (SystemTrayIcon.mk Icon.IconApp "" "")).toolTip = "IDLE"
      ∧ (SystemTrayIcon.update (fun d => QString.number d) (fun _ => 2000)
        (Project.mk false { Tomato.fresh 1500 300 with state := State.OverWorking })
        (SystemTrayIcon.mk Icon.IconApp "" "")).icon = Icon.IconStatusIdle :=
  update_not_open (fun d => QString.number d) (fun _ => 2000)
    (Project.mk false { Tomato.fresh 1500 300 with state := State.OverWorking })
    (SystemTrayIcon.mk Icon.IconApp "" "") rfl

/-- C13: for an open project, `updateTrayIcon` selects the icon from the timer state alone:
idle, working and resting icons for `Idle`, `Working` and `Resting`, the timeout
icon for both `OverWorking` and `OverResting`; so the timeout icon is selected
exactly when the project is open and the state is `OverWorking` or `OverResting`,
and two projects that agree on being open and on the state get the same icon,
whatever their durations. -/
theorem updateTrayIcon_per_state (project : Project) (tray : SystemTrayIcon) :
    (project.isOpen = true →
        (updateTrayIcon project tray).icon
          = (match project.tomato.state with
             | State.Idle => Icon.IconStatusIdle
             | State.Working => Icon.IconStatusWorking
             | State.OverWorking => Icon.IconStatusTimeout
             | State.Resting => Icon.IconStatusResting
             | State.OverResting => Icon.IconStatusTimeout))
      ∧ ((updateTrayIcon project tray).icon = Icon.IconStatusTimeout
          ↔ (project.isOpen = true
              ∧ (project.tomato.state = State.OverWorking
                  ∨ project.tomato.state = State.OverResting)))
      ∧ (∀ (other : Project) (otherTray : SystemTrayIcon),
          other.isOpen = project.isOpen → other.tomato.state = project.tomato.state →
            (updateTrayIcon other otherTray).icon = (updateTrayIcon project tray).icon)
      ∧ (updateTrayIcon project tray).statusText = tray.statusText
      ∧ (updateTrayIcon project tray).toolTip = tray.toolTip := by
  refine ⟨?_, ?_, ?_, ?_, ?_⟩
  · intro hopen
    simp only [updateTrayIcon, hopen, Bool.not_true, Bool.false_eq_true, if_false]
    cases project.tomato.state <;> rfl
  · cases hopen : project.isOpen <;> cases hs : project.tomato.state <;>
      simp [updateTrayIcon, hopen, hs]
  · intro other otherTray ho hs
    simp only [updateTrayIcon, ho, hs]
    cases project.isOpen <;> cases project.tomato.state <;> rfl
  · simp only [updateTrayIcon]
    cases project.isOpen <;> cases project.tomato.state <;> rfl
  · simp only [updateTrayIcon]
    cases project.isOpen <;> cases project.tomato.state <;> rfl

theorem updateTrayIcon_per_state_witness :
    (updateTrayIcon
        (Project.mk true { Tomato.fresh 1500 300 with state := State.OverResting })
        (SystemTrayIcon.mk Icon.IconApp "" "")).icon = Icon.IconStatusTimeout :=
  ((updateTrayIcon_per_state
      (Project.mk true { Tomato.fresh 1500 300 with state := State.OverResting })
      (SystemTrayIcon.mk Icon.IconApp "" "")).1 rfl).trans rfl

/-! ## Properties of saving to a file -/

/-- C14: `saveProjectToXml` returns success exactly when the file opens for writing and
`write` reports as many bytes as the serialized document has; when the open fails,
or `write` reports another count, it returns failure and the reason, if the caller
gave one, becomes the error text of the file; on success the reason is left as it
was. -/
theorem saveProjectToXml_outcome (toByteArray : QDomNode → List UInt8)
    (isEmpty : TaskTime → Bool) (output : OutputFile) (tomato : Tomato)
    (reason : Option String) :
    ((saveProjectToXml toByteArray isEmpty output tomato reason).ok = true
        ↔ (output.opens = true
            ∧ output.write (toByteArray (projectElem isEmpty tomato))
              = ((toByteArray (projectElem isEmpty tomato)).length : Int)))
      ∧ (output.opens = false →
          saveProjectToXml toByteArray isEmpty output tomato reason
            = ⟨false, reason.map (fun _ => output.openErrorString)⟩)
      ∧ (output.opens = true →
          output.write (toByteArray (projectElem isEmpty tomato))
            ≠ ((toByteArray (projectElem isEmpty tomato)).length : Int) →
          saveProjectToXml toByteArray isEmpty output tomato reason
            = ⟨false, reason.map (fun _ => output.writeErrorString)⟩)
      ∧ ((saveProjectToXml toByteArray isEmpty output tomato reason).ok = true →
          (saveProjectToXml toByteArray isEmpty output tomato reason).reason = reason)
      ∧ ((saveProjectToXml toByteArray isEmpty output tomato none).reason = none) := by
  refine ⟨?_, ?_, ?_, ?_, ?_⟩
  · cases hopen : output.opens
    · simp [saveProjectToXml, hopen]
    · by_cases hw : output.write (toByteArray (projectElem isEmpty tomato))
          = ((toByteArray (projectElem isEmpty tomato)).length : Int)
      · simp [saveProjectToXml, hopen, hw]
      · simp [saveProjectToXml, hopen, hw]
  · intro hopen
    simp [saveProjectToXml, hopen]
  · intro hopen hw
    simp [saveProjectToXml, hopen, hw]
  · cases hopen : output.opens
    · simp [saveProjectToXml, hopen]
    · by_cases hw : output.write (toByteArray (projectElem isEmpty tomato))
          = ((toByteArray (projectElem isEmpty tomato)).length : Int)
      · simp [saveProjectToXml, hopen, hw]
      · simp [saveProjectToXml, hopen, hw]
  · cases hopen : output.opens
    · simp [saveProjectToXml, hopen]
    · by_cases hw : output.write (toByteArray (projectElem isEmpty tomato))
          = ((toByteArray (projectElem isEmpty tomato)).length : Int)
      · simp [saveProjectToXml, hopen, hw]
      · simp [saveProjectToXml, hopen, hw]

theorem saveProjectToXml_outcome_witness :
    saveProjectToXml (fun _ => [60, 47, 62]) (fun _ => true)
        (OutputFile.mk true (fun _ => 2) "Permission denied" "No space left on device")
        (Tomato.fresh 1500 300) (some "")
      = ⟨false, some "No space left on device"⟩
      ∧ saveProjectToXml (fun _ => [60, 47, 62]) (fun _ => true)
        (OutputFile.mk false (fun _ => 3) "Permission denied" "No space left on device")
        (Tomato.fresh 1500 300) (some "")
      = ⟨false, some "Permission denied"⟩ :=
  ⟨(saveProjectToXml_outcome (fun _ => [60, 47, 62]) (fun _ => true)
      (OutputFile.mk true (fun _ => 2) "Permission denied" "No space left on device")
      (Tomato.fresh 1500 300) (some "")).2.2.1 rfl (by decide),
   (saveProjectToXml_outcome (fun _ => [60, 47, 62]) (fun _ => true)
      (OutputFile.mk false (fun _ => 3) "Permission denied" "No space left on device")
      (Tomato.fresh 1500 300) (some "")).2.1 rfl⟩

/-! ## Properties of the saved document -/

theorem number_flag (b : Bool) :
    QString.number (if b then 1 else 0) = if b then "1" else "0" := by
  cases b <;> decide

mutual
theorem createTaskElem_documented (isEmpty : TaskTime → Bool) (tomato : Tomato) :
    ∀ task : Task, createTaskElem isEmpty tomato task = documentedTaskElem isEmpty tomato task
  | Task.mk id data children => by
    rw [createTaskElem_eq, documentedTaskElem, number_flag,
      ← createTaskElems_documented isEmpty tomato children]
    have hmap : data.times.map taskTimeElem
        = data.times.map (fun t =>
            QDomNode.mk "Time"
              [("starttime", QString.number t.start), ("endtime", QString.number t.end_)]
              []) := by
      apply List.map_congr_left
      intro t _
      exact taskTimeElem_eq t
    rw [hmap, taskTimeElem_eq]
    rfl
theorem createTaskElems_documented (isEmpty : TaskTime → Bool) (tomato : Tomato) :
    ∀ tasks : List Task,
      tasks.map (createTaskElem isEmpty tomato) = documentedTaskElems isEmpty tomato tasks
  | [] => rfl
  | t :: rest => by
    rw [List.map_cons, documentedTaskElems, createTaskElem_documented isEmpty tomato t,
      createTaskElems_documented isEmpty tomato rest]
end

theorem documentedTaskElems_length (isEmpty : TaskTime → Bool) (tomato : Tomato)
    (tasks : List Task) : (documentedTaskElems isEmpty tomato tasks).length = tasks.length := by
  induction tasks with
  | nil => rfl
  | cons t rest ih => rw [documentedTaskElems, List.length_cons, List.length_cons, ih]

/-- C15: the document that `saveProjectToXml` builds has the root `TomatoTaskTracker`, whose
children are one `Settings` element carrying the two durations, then one `RootTask`
element; `RootTask` holds one `Task` element per top-level task in their order, and
each `Task` element carries the title, desc, timelimit and isdone of its task and
has as children its `Time` elements (the recorded ones, then the synthesized one if
any), then one `Task` element per child task in the children's order, all the way
down. -/
theorem projectElem_documented (isEmpty : TaskTime → Bool) (tomato : Tomato) :
    projectElem isEmpty tomato = documentedProjectElem isEmpty tomato
      ∧ (projectElem isEmpty tomato).childNodes.map (fun c => c.nodeName)
        = ["Settings", "RootTask"]
      ∧ ((projectElem isEmpty tomato).childNodes.flatMap (fun c => c.childNodes)).length
        = tomato.rootTask.children.length
      ∧ (∀ task : Task, createTaskElem isEmpty tomato task
          = documentedTaskElem isEmpty tomato task) := by
  have h : projectElem isEmpty tomato = documentedProjectElem isEmpty tomato := by
    rw [projectElem_eq, documentedProjectElem, createTaskElems_documented]
    rfl
  refine ⟨h, ?_, ?_, createTaskElem_documented isEmpty tomato⟩
  · rw [h]
    rfl
  · rw [h]
    simp [documentedProjectElem, QDomNode.childNodes, documentedTaskElems_length]

/-! ## Properties of a failed load -/

/-- C17: when the load fails because the root element is not named `TomatoTaskTracker`, no
`setWorkingTime`, `setRestingTime` or `addTask` call has been made and the tracker
is what it was before the call; more generally a load that returns failure leaves
the tracker as it was, so a load that changes the tracker, or makes any call on it,
is one that returns success. -/
theorem loadProjectFromXml_failure_no_change {σ : Type} (ops : TomatoOps σ)
    (DefaultWorkingTime DefaultRestingTime : Int) (input : InputFile) (tomato : σ) :
    (∀ documentElement : QDomNode, documentElement.nodeName ≠ "TomatoTaskTracker" →
        loadProjectFromXml ops.logged DefaultWorkingTime DefaultRestingTime
            (InputFile.document documentElement) (tomato, [])
          = ⟨false, some "incorrect file format", (tomato, [])⟩
        ∧ (loadProjectFromXml ops DefaultWorkingTime DefaultRestingTime
            (InputFile.document documentElement) tomato).tomato = tomato)
      ∧ ((loadProjectFromXml ops DefaultWorkingTime DefaultRestingTime input tomato).ok = false →
          (loadProjectFromXml ops DefaultWorkingTime DefaultRestingTime input tomato).tomato
            = tomato)
      ∧ ((loadProjectFromXml ops DefaultWorkingTime DefaultRestingTime input tomato).tomato
            ≠ tomato →
          (loadProjectFromXml ops DefaultWorkingTime DefaultRestingTime input tomato).ok = true)
      ∧ ((loadProjectFromXml ops.logged DefaultWorkingTime DefaultRestingTime input
            (tomato, [])).tomato.2 ≠ [] →
          (loadProjectFromXml ops.logged DefaultWorkingTime DefaultRestingTime input
            (tomato, [])).ok = true) := by
  have hfail : ∀ {τ : Type} (o : TomatoOps τ) (t : τ),
      (loadProjectFromXml o DefaultWorkingTime DefaultRestingTime input t).ok = false →
        (loadProjectFromXml o DefaultWorkingTime DefaultRestingTime input t).tomato = t := by
    intro τ o t h
    cases input with
    | unreadable e => rfl
    | malformed e => rfl
    | document d =>
      by_cases hd : d.nodeName = nsProject
      · simp [loadProjectFromXml, hd] at h
      · simp [loadProjectFromXml, hd]
  refine ⟨?_, hfail ops tomato, ?_, ?_⟩
  · intro documentElement hroot
    have h : documentElement.nodeName ≠ nsProject := hroot
    simp [loadProjectFromXml, h, incorrectFileFormat]
  · intro hne
    cases hok : (loadProjectFromXml ops DefaultWorkingTime DefaultRestingTime input tomato).ok
    · exact absurd (hfail ops tomato hok) hne
    · rfl
  · intro hne
    cases hok : (loadProjectFromXml ops.logged DefaultWorkingTime DefaultRestingTime input
        (tomato, [])).ok
    · rw [hfail ops.logged (tomato, []) hok] at hne
      exact absurd rfl hne
    · rfl

theorem loadProjectFromXml_failure_no_change_witness :
    loadProjectFromXml Tomato.ops.logged 1500 300
        (InputFile.document
          (QDomNode.mk "Project" []
            [QDomNode.mk "Settings" [("workingtime", "60")] [],
             QDomNode.mk "RootTask" [] [QDomNode.mk "Task" [("title", "a")] []]]))
        (Tomato.fresh 10 20, [])
      = ⟨false, some "incorrect file format", (Tomato.fresh 10 20, [])⟩ :=
  ((loadProjectFromXml_failure_no_change Tomato.ops 1500 300
      (InputFile.unreadable "") (Tomato.fresh 10 20)).1
    (QDomNode.mk "Project" []
      [QDomNode.mk "Settings" [("workingtime", "60")] [],
       QDomNode.mk "RootTask" [] [QDomNode.mk "Task" [("title", "a")] []]])
    (by decide)).1

/-! ## Saving, then loading: intervals that are not positive -/

theorem validTime_taskTimeElem_inRange (taskTime : TaskTime)
    (h : (fitsInt64 taskTime.start && fitsInt64 taskTime.end_) = true) :
    validTime (taskTimeElem taskTime)
      = if 0 < taskTime.start ∧ 0 < taskTime.end_ then some taskTime else none := by
  simp only [Bool.and_eq_true, fitsInt64, decide_eq_true_eq] at h
  obtain ⟨h2, h4⟩ := h
  have ha : (taskTimeElem taskTime).attr attrStartTime "0" = QString.number taskTime.start := by
    rw [taskTimeElem_eq]
    simp [QDomNode.attr, QDomNode.attributes, List.lookup]
  have hb : (taskTimeElem taskTime).attr attrEndTime "0" = QString.number taskTime.end_ := by
    rw [taskTimeElem_eq]
    have : (attrEndTime == attrStartTime) = false := by decide
    simp [QDomNode.attr, QDomNode.attributes, List.lookup, this]
  simp only [validTime, ha, hb, QString.toLongLong_number _ h2, QString.toLongLong_number _ h4]

theorem filterMap_validTime_inRange (times : List TaskTime)
    (h : times.all (fun t => fitsInt64 t.start && fitsInt64 t.end_) = true) :
    (times.map taskTimeElem).filterMap validTime
      = times.filter (fun t => decide (0 < t.start ∧ 0 < t.end_)) := by
  induction times with
  | nil => rfl
  | cons t rest ih =>
    rw [List.all_cons, Bool.and_eq_true] at h
    rw [List.map_cons, List.filterMap_cons, validTime_taskTimeElem_inRange t h.1, ih h.2,
      List.filter_cons]
    by_cases hp : 0 < t.start ∧ 0 < t.end_
    · simp [hp]
    · simp [hp]

theorem taskDataFromElem_createTaskElem_inRange (isEmpty : TaskTime → Bool) (tomato : Tomato)
    (id : Int) (data : TaskData) (children : List Task)
    (hrange : data.inRange = true) (hsyn : synthesizes isEmpty tomato id = false) :
    taskDataFromElem (createTaskElem isEmpty tomato (Task.mk id data children))
      = { data with
          times := data.times.filter (fun t => decide (0 < t.start ∧ 0 < t.end_)) } := by
  simp only [TaskData.inRange, Bool.and_eq_true] at hrange
  obtain ⟨hlimit, htimes⟩ := hrange
  have hlimit' : -2 ^ 63 ≤ data.timeLimit ∧ data.timeLimit < 2 ^ 63 := by
    simpa [fitsInt64] using hlimit
  have htf : taskTimesFromElem (createTaskElem isEmpty tomato (Task.mk id data children))
      = data.times.filter (fun t => decide (0 < t.start ∧ 0 < t.end_)) := by
    rw [taskTimesFromElem, taskTimesLoop_eq, createTaskElem_time_filter, hsyn]
    simp [filterMap_validTime_inRange data.times htimes]
  have hattrs : (createTaskElem isEmpty tomato (Task.mk id data children)).attributes
      = [(attrTitle, data.title), (attrDesc, data.desc),
         (attrTimeLimit, QString.number data.timeLimit),
         (attrIsDone, QString.number (if data.isCompleted then 1 else 0))] := by
    rw [createTaskElem_eq]
    rfl
  have hdone : decide (QString.toInt (QString.number (if data.isCompleted then 1 else 0)) ≠ 0)
      = data.isCompleted := by
    cases data.isCompleted <;> decide
  have e1 : (attrDesc == attrTitle) = false := by decide
  have e2 : (attrTimeLimit == attrTitle) = false := by decide
  have e3 : (attrTimeLimit == attrDesc) = false := by decide
  have e4 : (attrIsDone == attrTitle) = false := by decide
  have e5 : (attrIsDone == attrDesc) = false := by decide
  have e6 : (attrIsDone == attrTimeLimit) = false := by decide
  simp only [taskDataFromElem, htf, QDomNode.attr, hattrs, List.lookup, e1, e2, e3, e4, e5, e6,
    beq_self_eq_true, QString.toLongLong_number _ hlimit', hdone]

mutual
theorem builtTask_createTaskElem_inRange (isEmpty : TaskTime → Bool) (tomato : Tomato)
    (hsyn : ∀ id, synthesizes isEmpty tomato id = false) :
    ∀ (task : Task) (next : Int), Task.all (fun _ data => data.inRange) task = true →
      Task.tree (builtTask (createTaskElem isEmpty tomato task) next).1
        = Task.tree (Task.positiveOnly task)
  | Task.mk id data children, next => by
    intro h
    rw [Task.all, Bool.and_eq_true] at h
    have hdata := taskDataFromElem_createTaskElem_inRange isEmpty tomato id data children h.1
      (hsyn id)
    have hne : nsTaskTime ≠ nsTask := by decide
    have hkids : builtTasks
        (data.times.map taskTimeElem
          ++ (if synthesizes isEmpty tomato id then [taskTimeElem tomato.calcActiveTaskTime]
              else [])
          ++ children.map (createTaskElem isEmpty tomato)) (next + 1)
        = builtTasks (children.map (createTaskElem isEmpty tomato)) (next + 1) := by
      apply builtTasks_skip
      intro c hc
      rw [hsyn id] at hc
      simp only [Bool.false_eq_true, if_false, List.append_nil] at hc
      obtain ⟨t, _, rfl⟩ := List.mem_map.1 hc
      simp [taskTimeElem_eq, QDomNode.nodeName, hne]
    have e := createTaskElem_eq isEmpty tomato id data children
    rw [e] at hdata
    rw [e, builtTask, hdata, hkids, Task.positiveOnly, Task.tree, Task.tree,
      builtTasks_createTaskElem_inRange isEmpty tomato hsyn children (next + 1) h.2]
theorem builtTasks_createTaskElem_inRange (isEmpty : TaskTime → Bool) (tomato : Tomato)
    (hsyn : ∀ id, synthesizes isEmpty tomato id = false) :
    ∀ (tasks : List Task) (next : Int),
      Task.allList (fun _ data => data.inRange) tasks = true →
        Task.forest (builtTasks (tasks.map (createTaskElem isEmpty tomato)) next).1
          = Task.forest (Task.positiveOnlyList tasks)
  | [], next => by
    intro _
    rfl
  | t :: rest, next => by
    intro h
    rw [Task.allList, Bool.and_eq_true] at h
    rw [List.map_cons, builtTasks, if_pos (createTaskElem_nodeName isEmpty tomato t)]
    simp only [Task.positiveOnlyList, Task.forest]
    rw [builtTask_createTaskElem_inRange isEmpty tomato hsyn t next h.1,
      builtTasks_createTaskElem_inRange isEmpty tomato hsyn rest _ h.2]
end

theorem load_saved_built (isEmpty : TaskTime → Bool) (tomato fresh : Tomato) (dW dR : Int)
    (hw : fitsInt32 tomato.workingTime = true) (hr : fitsInt32 tomato.restingTime = true)
    (hfresh : fresh.rootTask.children = []) (hid : fresh.rootTask.id < fresh.nextId) :
    (loadProjectFromXml Tomato.ops dW dR
        (InputFile.document (projectElem isEmpty tomato)) fresh).ok = true
      ∧ (loadProjectFromXml Tomato.ops dW dR
          (InputFile.document (projectElem isEmpty tomato)) fresh).tomato.rootTask.children
        = (builtTasks (tomato.rootTask.children.map (createTaskElem isEmpty tomato))
            fresh.nextId).1
      ∧ (loadProjectFromXml Tomato.ops dW dR
          (InputFile.document (projectElem isEmpty tomato)) fresh).tomato.workingTime
        = tomato.workingTime
      ∧ (loadProjectFromXml Tomato.ops dW dR
          (InputFile.document (projectElem isEmpty tomato)) fresh).tomato.restingTime
        = tomato.restingTime := by
  have hw' : -2 ^ 31 ≤ tomato.workingTime ∧ tomato.workingTime < 2 ^ 31 := by
    simpa [fitsInt32] using hw
  have hr' : -2 ^ 31 ≤ tomato.restingTime ∧ tomato.restingTime < 2 ^ 31 := by
    simpa [fitsInt32] using hr
  have hne1 : nsRootTask ≠ nsSettings := by decide
  have hbeq : (attrRestingTime == attrWorkingTime) = false := by decide
  obtain ⟨fw, fr, fs, froot, fa, fc, fn⟩ := fresh
  obtain ⟨rid, rdata, rchildren⟩ := froot
  have hrc : rchildren = [] := hfresh
  subst hrc
  have hid' : rid < fn := hid
  have hinv : ∀ i ∈ Task.ids (Task.mk rid rdata []), i < fn := by
    intro i hi
    simp [Task.ids, Task.idsList] at hi
    omega
  have hload : (loadProjectFromXml Tomato.ops dW dR
      (InputFile.document (projectElem isEmpty tomato))
      (Tomato.mk fw fr fs (Task.mk rid rdata []) fa fc fn))
      = ⟨true, none,
          rootTaskLoop Tomato.ops (tomato.rootTask.children.map (createTaskElem isEmpty tomato))
            (Tomato.mk tomato.workingTime tomato.restingTime fs (Task.mk rid rdata []) fa fc
              fn)⟩ := by
    rw [projectElem_eq]
    simp only [loadProjectFromXml, QDomNode.nodeName, QDomNode.childNodes, ne_eq,
      not_true_eq_false, if_false, projectLoop, if_true, hne1, QDomNode.attr,
      QDomNode.attributes, List.lookup, beq_self_eq_true, hbeq,
      QString.toInt_number _ hw', QString.toInt_number _ hr']
    rfl
  rw [hload, rootTaskLoop_built _ _ hinv]
  refine ⟨rfl, ?_, rfl, rfl⟩
  show (Task.appendUnder rid _ (Task.mk rid rdata [])).children = _
  simp [Task.appendUnder, Task.appendUnderList, Task.children]

theorem noPhantom_synthesizes (isEmpty : TaskTime → Bool) (tomato : Tomato)
    (h : noPhantom isEmpty tomato = true) (id : Int) :
    synthesizes isEmpty tomato id = false := by
  unfold noPhantom at h
  unfold synthesizes Tomato.isActiveTask
  cases hs : (tomato.state == State.Working || tomato.state == State.OverWorking) <;>
    cases he : isEmpty tomato.calcActiveTaskTime <;>
    cases ha : tomato.activeTaskId <;>
    simp [hs, he, ha] at h ⊢

/-- C16: for a tracker for which saving synthesizes no interval (the timer neither working
nor over-working, or no active task, or an empty accrued interval), time limits and
timestamps being `qint64` and durations `int`, loading the saved document into a
tracker with no task succeeds and gives the same durations and the same task tree
except that every interval with a start or an end that is not positive is missing;
when all intervals have a positive start and end the task tree is the same
(hierarchy, order, title, description, time limit, completion flag and intervals
of every task). -/
theorem save_then_load_positive_intervals (isEmpty : TaskTime → Bool) (tomato fresh : Tomato)
    (DefaultWorkingTime DefaultRestingTime : Int)
    (hphantom : noPhantom isEmpty tomato = true)
    (hrange : Task.allList (fun _ data => data.inRange) tomato.rootTask.children = true)
    (hw : fitsInt32 tomato.workingTime = true) (hr : fitsInt32 tomato.restingTime = true)
    (hfresh : fresh.rootTask.children = []) (hid : fresh.rootTask.id < fresh.nextId) :
    (loadProjectFromXml Tomato.ops DefaultWorkingTime DefaultRestingTime
        (InputFile.document (projectElem isEmpty tomato)) fresh).ok = true
      ∧ Task.forest (loadProjectFromXml Tomato.ops DefaultWorkingTime DefaultRestingTime
          (InputFile.document (projectElem isEmpty tomato)) fresh).tomato.rootTask.children
        = Task.forest (Task.positiveOnlyList tomato.rootTask.children)
      ∧ (Task.allList (fun _ data => data.positiveTimes) tomato.rootTask.children = true →
          Task.forest (loadProjectFromXml Tomato.ops DefaultWorkingTime DefaultRestingTime
            (InputFile.document (projectElem isEmpty tomato)) fresh).tomato.rootTask.children
          = Task.forest tomato.rootTask.children)
      ∧ (loadProjectFromXml Tomato.ops DefaultWorkingTime DefaultRestingTime
          (InputFile.document (projectElem isEmpty tomato)) fresh).tomato.workingTime
        = tomato.workingTime
      ∧ (loadProjectFromXml Tomato.ops DefaultWorkingTime DefaultRestingTime
          (InputFile.document (projectElem isEmpty tomato)) fresh).tomato.restingTime
        = tomato.restingTime := by
  have hsyn := noPhantom_synthesizes isEmpty tomato hphantom
  obtain ⟨h1, h2, h3, h4⟩ := load_saved_built isEmpty tomato fresh DefaultWorkingTime
    DefaultRestingTime hw hr hfresh hid
  refine ⟨h1, ?_, ?_, h3, h4⟩
  · rw [h2]
    exact builtTasks_createTaskElem_inRange isEmpty tomato hsyn _ _ hrange
  · intro hpos
    apply (load_saved_document isEmpty tomato fresh DefaultWorkingTime DefaultRestingTime _ hw
      hr hfresh hid).2.1
    apply allList_of_imp _ _ _ _ hpos
    intro id data hdata
    simp [storedAsRecorded, hsyn id, hdata]

theorem save_then_load_positive_intervals_witness :
    Task.forest (loadProjectFromXml Tomato.ops 1500 300
        (InputFile.document
          (projectElem (fun _ => true)
            (Tomato.mk 1200 240 State.Working
              (Task.mk 0 (TaskData.mk "" "" 0 false [])
                [Task.mk 4 (TaskData.mk "write" "draft" 3600 true
                    [TaskTime.mk 10 20, TaskTime.mk 0 5])
                   [Task.mk 9 (TaskData.mk "review" "" 0 false [TaskTime.mk 7 (-1)]) []]])
              (some 9) (TaskTime.mk 50 50) 10)))
        (Tomato.fresh 1500 300)).tomato.rootTask.children
      = Task.forest
          [Task.mk 4 (TaskData.mk "write" "draft" 3600 true [TaskTime.mk 10 20])
             [Task.mk 9 (TaskData.mk "review" "" 0 false []) []]] :=
  (save_then_load_positive_intervals (fun _ => true)
    (Tomato.mk 1200 240 State.Working
      (Task.mk 0 (TaskData.mk "" "" 0 false [])
        [Task.mk 4 (TaskData.mk "write" "draft" 3600 true
            [TaskTime.mk 10 20, TaskTime.mk 0 5])
           [Task.mk 9 (TaskData.mk "review" "" 0 false [TaskTime.mk 7 (-1)]) []]])
      (some 9) (TaskTime.mk 50 50) 10)
    (Tomato.fresh 1500 300) 1500 300 (by decide) (by decide) (by decide) (by decide) rfl
    (by decide)).2.1

end TomatoTaskTracker
